import Mathlib

/-!
# Verification of the MQTT-subset broker core (`src/core/mqtt_server.py`)

Shallow embedding of the broker's packet codec, framing loop, subscription
registry, publish router and session lifecycle, together with theorems that
settle the frozen specification claims.

Modelling conventions:
* wire bytes are `Nat` values `< 256` (hypothesised where it matters);
* Python `str` values are modelled as `List Nat` of Unicode scalar values
  (`strScalars` maps a Lean string literal to this representation);
* Python exceptions are modelled with `Except` / `Option` / dedicated sum
  types, mirroring exactly which call sites catch them;
* functions keep the Python names (`decode_remaining_length`, …) and are
  line-by-line translations of the source; library calls used by the source
  (`base64.b64encode/b64decode`, UTF-8 `str.encode`/`bytes.decode`,
  `struct.pack(">H", ·)`) are modelled by the `b64…`/`utf8…`/16-bit helpers
  below, restricted where noted to the input shapes that arise here.
-/

/-- A Python string, as its list of Unicode scalar values. -/
def strScalars (s : String) : List Nat := s.data.map Char.toNat

/-! ## Remaining-length codec (`decode_remaining_length` / `encode_remaining_length`) -/

/-- Loop body of `decode_remaining_length`: the Python `while pos < len(data)`
loop, with the not-yet-consumed bytes as an explicit list.  Mirrors, in order:
`value += (byte & 127) * multiplier`, `multiplier *= 128`, `pos += 1`,
`if (byte & 128) == 0: break`, `if multiplier > 128**3: raise ValueError`. -/
def drlGo : List Nat → Nat → Nat → Nat → Except String (Nat × Nat)
  | [], pos, _, value => .ok (value, pos)
  | b :: rest, pos, multiplier, value =>
    let value' := value + (b &&& 127) * multiplier
    let multiplier' := multiplier * 128
    let pos' := pos + 1
    if b &&& 128 = 0 then .ok (value', pos')
    else if multiplier' > 128 * 128 * 128 then .error "剩余长度编码错误"
    else drlGo rest pos' multiplier' value'

/-- `decode_remaining_length(data, start_pos)`: returns `(value, pos)` or
raises `ValueError` (modelled as `.error`). -/
def decode_remaining_length (data : List Nat) (start_pos : Nat) :
    Except String (Nat × Nat) :=
  drlGo (data.drop start_pos) start_pos 1 0

/-- `encode_remaining_length(length)`: the Python `while True` loop emitting
`length % 128` (with the continuation bit when `length // 128 > 0`) and
looping on `length // 128`. -/
def encode_remaining_length (len0 : Nat) : List Nat :=
  let byte := len0 % 128
  let rest := len0 / 128
  if h : rest > 0 then (byte ||| 128) :: encode_remaining_length rest
  else [byte]
  termination_by len0
  decreasing_by
    exact Nat.div_lt_self (by omega) (by omega)

/-! ### Bitwise facts about bytes below 128 -/

theorem and127_of_lt (m : Nat) (h : m < 128) : m &&& 127 = m := by
  revert h
  revert m
  decide

theorem and128_of_lt (m : Nat) (h : m < 128) : m &&& 128 = 0 := by
  revert h
  revert m
  decide

theorem or128_and127 (m : Nat) (h : m < 128) : (m ||| 128) &&& 127 = m := by
  revert h
  revert m
  decide

theorem or128_and128 (m : Nat) (h : m < 128) : (m ||| 128) &&& 128 = 128 := by
  revert h
  revert m
  decide

theorem encode_remaining_length_small (n : Nat) (h : n < 128) :
    encode_remaining_length n = [n] := by
  rw [encode_remaining_length]
  simp [Nat.div_eq_of_lt h, Nat.mod_eq_of_lt h]

theorem encode_remaining_length_large (n : Nat) (h : 128 ≤ n) :
    encode_remaining_length n =
      (n % 128 ||| 128) :: encode_remaining_length (n / 128) := by
  rw [encode_remaining_length]
  have : n / 128 > 0 := Nat.div_pos h (by omega)
  simp [this]

/-- Generalised round-trip: feeding the encoding of `n` (followed by anything)
to the decode loop that has already consumed `k` bytes returns the
accumulated value plus `n * 128^k` and advances past the encoding. -/
theorem drlGo_encode (n : Nat) : ∀ (k : Nat) (rest : List Nat) (pos value : Nat),
    k ≤ 3 → n < 128 ^ (4 - k) →
    drlGo (encode_remaining_length n ++ rest) pos (128 ^ k) value =
      .ok (value + n * 128 ^ k, pos + (encode_remaining_length n).length) := by
  induction n using Nat.strong_induction_on with
  | _ n ih =>
    intro k rest pos value hk hn
    by_cases h : n < 128
    · rw [encode_remaining_length_small n h]
      simp only [List.cons_append, List.nil_append, drlGo, and127_of_lt n h,
        and128_of_lt n h, if_pos rfl, List.length_cons, List.length_nil]
      rfl
    · push_neg at h
      rw [encode_remaining_length_large n h]
      have hq : n / 128 > 0 := Nat.div_pos h (by omega)
      have hk2 : k ≤ 2 := by
        rcases Nat.lt_or_ge k 3 with hlt | hge
        · omega
        · exfalso
          have : k = 3 := by omega
          subst this
          simp at hn
          omega
      simp only [List.cons_append, drlGo, or128_and127 _ (Nat.mod_lt n (by omega)),
        or128_and128 _ (Nat.mod_lt n (by omega))]
      have h128 : (128 : Nat) ≠ 0 := by omega
      rw [if_neg (by omega)]
      rw [if_neg (by
        have : 128 ^ k * 128 = 128 ^ (k + 1) := by ring
        rw [this]
        have : 128 ^ (k + 1) ≤ 128 ^ 3 := Nat.pow_le_pow_right (by omega) (by omega)
        simp only [gt_iff_lt, not_lt]
        calc 128 ^ (k+1) ≤ 128 ^ 3 := this
          _ = 128 * 128 * 128 := by norm_num
          _ ≤ 128 * (128 * 128) := by omega)]
      have hrec : 128 ^ k * 128 = 128 ^ (k + 1) := by ring
      rw [hrec]
      have hlt : n / 128 < n := Nat.div_lt_self (by omega) (by omega)
      have hbound : n / 128 < 128 ^ (4 - (k + 1)) := by
        have h1 : n < 128 ^ (4 - k) := hn
        have h2 : 4 - k = (4 - (k + 1)) + 1 := by omega
        rw [h2] at h1
        apply Nat.div_lt_of_lt_mul
        calc n < 128 ^ ((4 - (k+1)) + 1) := h1
          _ = 128 * 128 ^ (4 - (k+1)) := by ring
      simp only [List.append_eq]
      rw [ih (n / 128) hlt (k + 1) rest (pos + 1)
        (value + n % 128 * 128 ^ k) (by omega) hbound]
      have hval : value + n % 128 * 128 ^ k + n / 128 * 128 ^ (k + 1)
          = value + n * 128 ^ k := by
        calc value + n % 128 * 128 ^ k + n / 128 * 128 ^ (k + 1)
            = value + (n % 128 + 128 * (n / 128)) * 128 ^ k := by ring
          _ = value + n * 128 ^ k := by rw [Nat.mod_add_div]
      have hlen : pos + 1 + (encode_remaining_length (n / 128)).length =
          pos + ((n % 128 ||| 128) :: encode_remaining_length (n / 128)).length := by
        simp only [List.length_cons]
        omega
      rw [hval, hlen]

/-- Top-level round-trip for the remaining-length codec. -/
theorem decode_encode_remaining_length (n : Nat) (h : n ≤ 268435455) :
    decode_remaining_length (encode_remaining_length n) 0 =
      .ok (n, (encode_remaining_length n).length) := by
  have := drlGo_encode n 0 [] 0 0 (by omega) (by norm_num; omega)
  simpa [decode_remaining_length] using this

/-- The encoding of `n` bounds `n` from above: `n < 128 ^ length`. -/
theorem encode_remaining_length_lt (n : Nat) :
    n < 128 ^ (encode_remaining_length n).length := by
  induction n using Nat.strong_induction_on with
  | _ n ih =>
    by_cases h : n < 128
    · rw [encode_remaining_length_small n h]
      simpa using h
    · push_neg at h
      rw [encode_remaining_length_large n h]
      have hlt : n / 128 < n := Nat.div_lt_self (by omega) (by omega)
      have := ih (n / 128) hlt
      simp only [List.length_cons]
      have h2 : n < 128 * 128 ^ (encode_remaining_length (n / 128)).length := by
        have h3 : n < 128 * (n / 128 + 1) := by
          have h4 := Nat.mod_add_div n 128
          have h5 : n % 128 < 128 := Nat.mod_lt n (by omega)
          omega
        calc n < 128 * (n / 128 + 1) := h3
          _ ≤ 128 * 128 ^ (encode_remaining_length (n / 128)).length := by
              apply Nat.mul_le_mul_left
              omega
      calc n < 128 * 128 ^ (encode_remaining_length (n / 128)).length := h2
        _ = 128 ^ ((encode_remaining_length (n / 128)).length + 1) := by ring

/-- Minimality: a multi-byte encoding is only produced for values that need it. -/
theorem encode_remaining_length_minimal (n : Nat) :
    (encode_remaining_length n).length = 1 ∨
      128 ^ ((encode_remaining_length n).length - 1) ≤ n := by
  induction n using Nat.strong_induction_on with
  | _ n ih =>
    by_cases h : n < 128
    · rw [encode_remaining_length_small n h]
      left
      rfl
    · push_neg at h
      rw [encode_remaining_length_large n h]
      right
      have hlt : n / 128 < n := Nat.div_lt_self (by omega) (by omega)
      rcases ih (n / 128) hlt with h1 | h1
      · simp only [List.length_cons, h1]
        simpa using h
      · simp only [List.length_cons, Nat.add_sub_cancel]
        have h2 : 128 ^ ((encode_remaining_length (n / 128)).length - 1) * 128 ≤ (n / 128) * 128 :=
          Nat.mul_le_mul_right 128 h1
        have h3 : (n / 128) * 128 ≤ n := by
          have := Nat.mod_add_div n 128
          omega
        have h4 : (encode_remaining_length (n / 128)).length - 1 + 1 =
            (encode_remaining_length (n / 128)).length := by
          have : (encode_remaining_length (n / 128)).length ≠ 0 := by
            rw [encode_remaining_length]
            split <;> simp
          omega
        calc 128 ^ (encode_remaining_length (n / 128)).length
            = 128 ^ ((encode_remaining_length (n / 128)).length - 1 + 1) := by rw [h4]
          _ = 128 ^ ((encode_remaining_length (n / 128)).length - 1) * 128 := by ring
          _ ≤ (n / 128) * 128 := h2
          _ ≤ n := h3

/-- In-range values encode to at most 4 bytes. -/
theorem encode_remaining_length_le_four (n : Nat) (h : n ≤ 268435455) :
    (encode_remaining_length n).length ≤ 4 := by
  rcases encode_remaining_length_minimal n with h1 | h1
  · omega
  · by_contra hgt
    push_neg at hgt
    have h5 : (5 : Nat) ≤ (encode_remaining_length n).length := hgt
    have : 128 ^ 4 ≤ 128 ^ ((encode_remaining_length n).length - 1) :=
      Nat.pow_le_pow_right (by omega) (by omega)
    have : 128 ^ 4 ≤ n := le_trans this h1
    norm_num at this
    omega

/-- The encoding is never empty. -/
theorem encode_remaining_length_ne_nil (n : Nat) :
    encode_remaining_length n ≠ [] := by
  rw [encode_remaining_length]
  split <;> simp

/-! ## UTF-8 (Python `str.encode('utf-8')` / `bytes.decode('utf-8')`)

Python strings are sequences of Unicode scalar values, modelled as `List Nat`.
A value is a valid scalar iff it is below `0x110000` and not a surrogate. -/

/-- Valid Unicode scalar value (what a Python `str` element can be). -/
def ValidScalar (n : Nat) : Prop := n < 0x110000 ∧ (n < 0xD800 ∨ 0xE000 ≤ n)

instance (n : Nat) : Decidable (ValidScalar n) := by
  unfold ValidScalar
  infer_instance

/-- UTF-8 encoding of one scalar (`str.encode('utf-8')`, per scalar). -/
def utf8EncodeScalar (n : Nat) : List Nat :=
  if n < 0x80 then [n]
  else if n < 0x800 then [0xC0 + n / 64, 0x80 + n % 64]
  else if n < 0x10000 then [0xE0 + n / 4096, 0x80 + n / 64 % 64, 0x80 + n % 64]
  else [0xF0 + n / 262144, 0x80 + n / 4096 % 64, 0x80 + n / 64 % 64, 0x80 + n % 64]

/-- `s.encode('utf-8')` for a whole string. -/
def utf8Encode (s : List Nat) : List Nat := s.flatMap utf8EncodeScalar

/-- Is `b` a UTF-8 continuation byte? -/
def utf8Cont (b : Nat) : Bool := 0x80 ≤ b ∧ b < 0xC0

/-- Allowed second byte after a 3-byte leader (excludes overlongs/surrogates,
as CPython's strict `bytes.decode('utf-8')` does). -/
def utf8Cont3 (b b2 : Nat) : Bool :=
  if b = 0xE0 then 0xA0 ≤ b2 ∧ b2 < 0xC0
  else if b = 0xED then 0x80 ≤ b2 ∧ b2 < 0xA0
  else utf8Cont b2

/-- Allowed second byte after a 4-byte leader. -/
def utf8Cont4 (b b2 : Nat) : Bool :=
  if b = 0xF0 then 0x90 ≤ b2 ∧ b2 < 0xC0
  else if b = 0xF4 then 0x80 ≤ b2 ∧ b2 < 0x90
  else utf8Cont b2

/-- Strict UTF-8 decoding (`bytes.decode('utf-8')`): `none` models
`UnicodeDecodeError`. -/
def utf8Decode : List Nat → Option (List Nat)
  | [] => some []
  | b :: rest =>
    if b < 0x80 then (utf8Decode rest).map (b :: ·)
    else if b < 0xC2 then none
    else if b < 0xE0 then
      if 1 ≤ rest.length then
        let b2 := rest.headD 0
        if utf8Cont b2 then
          (utf8Decode (rest.drop 1)).map (((b - 0xC0) * 64 + (b2 - 0x80)) :: ·)
        else none
      else none
    else if b < 0xF0 then
      if 2 ≤ rest.length then
        let b2 := rest.headD 0
        let b3 := (rest.drop 1).headD 0
        if utf8Cont3 b b2 ∧ utf8Cont b3 then
          (utf8Decode (rest.drop 2)).map
            (((b - 0xE0) * 4096 + (b2 - 0x80) * 64 + (b3 - 0x80)) :: ·)
        else none
      else none
    else if b < 0xF5 then
      if 3 ≤ rest.length then
        let b2 := rest.headD 0
        let b3 := (rest.drop 1).headD 0
        let b4 := (rest.drop 2).headD 0
        if utf8Cont4 b b2 ∧ utf8Cont b3 ∧ utf8Cont b4 then
          (utf8Decode (rest.drop 3)).map
            (((b - 0xF0) * 262144 + (b2 - 0x80) * 4096 + (b3 - 0x80) * 64 + (b4 - 0x80)) :: ·)
        else none
      else none
    else none
  termination_by l => l.length
  decreasing_by
    all_goals simp [List.length_drop]
    all_goals omega


/-! ### Unfolding lemmas for `utf8Decode` -/
/-! ### Unfolding lemmas for `utf8Decode` -/

theorem utf8Decode_cons1 (b : Nat) (rest : List Nat) (h : b < 0x80) :
    utf8Decode (b :: rest) = (utf8Decode rest).map (b :: ·) := by
  rw [utf8Decode.eq_def]
  dsimp only
  rw [if_pos h]

theorem utf8Decode_cons2 (b b2 : Nat) (rest : List Nat)
    (h1 : 0xC2 ≤ b) (h2 : b < 0xE0) (hc : utf8Cont b2 = true) :
    utf8Decode (b :: b2 :: rest) =
      (utf8Decode rest).map (((b - 0xC0) * 64 + (b2 - 0x80)) :: ·) := by
  rw [utf8Decode.eq_def]
  dsimp only
  simp only [List.length_cons, List.headD_cons, List.drop_succ_cons, List.drop_zero]
  rw [if_neg (by omega), if_neg (by omega), if_pos h2, if_pos (by omega), if_pos hc]

theorem utf8Decode_cons3 (b b2 b3 : Nat) (rest : List Nat)
    (h1 : 0xE0 ≤ b) (h2 : b < 0xF0) (hc2 : utf8Cont3 b b2 = true)
    (hc3 : utf8Cont b3 = true) :
    utf8Decode (b :: b2 :: b3 :: rest) =
      (utf8Decode rest).map
        (((b - 0xE0) * 4096 + (b2 - 0x80) * 64 + (b3 - 0x80)) :: ·) := by
  rw [utf8Decode.eq_def]
  dsimp only
  simp only [List.length_cons, List.headD_cons, List.drop_succ_cons, List.drop_zero]
  rw [if_neg (by omega), if_neg (by omega), if_neg (by omega), if_pos h2,
    if_pos (by omega)]
  rw [if_pos (by simp [hc2, hc3])]

theorem utf8Decode_cons4 (b b2 b3 b4 : Nat) (rest : List Nat)
    (h1 : 0xF0 ≤ b) (h2 : b < 0xF5) (hc2 : utf8Cont4 b b2 = true)
    (hc3 : utf8Cont b3 = true) (hc4 : utf8Cont b4 = true) :
    utf8Decode (b :: b2 :: b3 :: b4 :: rest) =
      (utf8Decode rest).map
        (((b - 0xF0) * 262144 + (b2 - 0x80) * 4096 + (b3 - 0x80) * 64 + (b4 - 0x80)) :: ·) := by
  rw [utf8Decode.eq_def]
  dsimp only
  simp only [List.length_cons, List.headD_cons, List.drop_succ_cons, List.drop_zero]
  rw [if_neg (by omega), if_neg (by omega), if_neg (by omega), if_neg (by omega),
    if_pos h2, if_pos (by omega)]
  rw [if_pos (by simp [hc2, hc3, hc4])]

/-- UTF-8 round-trip on valid scalars. -/
theorem utf8Decode_utf8Encode (s : List Nat) (h : ∀ n ∈ s, ValidScalar n) :
    utf8Decode (utf8Encode s) = some s := by
  induction s with
  | nil =>
    have he : utf8Encode [] = [] := rfl
    rw [he, utf8Decode.eq_def]
  | cons n t ih =>
    have hn : ValidScalar n := h n (List.mem_cons_self n t)
    have ht := ih (fun m hm => h m (List.mem_cons_of_mem n hm))
    obtain ⟨hlt, hsur⟩ := hn
    have henc : utf8Encode (n :: t) = utf8EncodeScalar n ++ utf8Encode t := by
      simp [utf8Encode]
    rw [henc]
    by_cases h1 : n < 0x80
    · rw [utf8EncodeScalar, if_pos h1]
      simp only [List.cons_append, List.nil_append]
      rw [utf8Decode_cons1 n _ h1, ht]
      rfl
    · by_cases h2 : n < 0x800
      · rw [utf8EncodeScalar, if_neg h1, if_pos h2]
        simp only [List.cons_append, List.nil_append]
        have hcont : utf8Cont (0x80 + n % 64) = true := by
          unfold utf8Cont
          simp only [decide_eq_true_eq]
          omega
        rw [utf8Decode_cons2 _ _ _ (by omega) (by omega) hcont, ht]
        have harith : (0xC0 + n / 64 - 0xC0) * 64 + (0x80 + n % 64 - 0x80) = n := by
          have := Nat.div_add_mod n 64
          omega
        simp only [Option.map_some']
        rw [harith]
      · by_cases h3 : n < 0x10000
        · rw [utf8EncodeScalar, if_neg h1, if_neg h2, if_pos h3]
          simp only [List.cons_append, List.nil_append]
          have e3 : n / 64 / 64 = n / 4096 := by
            rw [Nat.div_div_eq_div_mul]
          have hcont3 : utf8Cont3 (0xE0 + n / 4096) (0x80 + n / 64 % 64) = true := by
            by_cases he0 : n / 4096 = 0
            · unfold utf8Cont3
              rw [if_pos (by omega)]
              simp only [decide_eq_true_eq]
              omega
            · by_cases hed : n / 4096 = 13
              · unfold utf8Cont3
                rw [if_neg (by omega), if_pos (by omega)]
                simp only [decide_eq_true_eq]
                have hlow : n < 0xD800 := by
                  rcases hsur with hs | hs
                  · exact hs
                  · exfalso
                    omega
                omega
              · unfold utf8Cont3
                rw [if_neg (by omega), if_neg (by omega)]
                unfold utf8Cont
                simp only [decide_eq_true_eq]
                omega
          have hcont : utf8Cont (0x80 + n % 64) = true := by
            unfold utf8Cont
            simp only [decide_eq_true_eq]
            omega
          rw [utf8Decode_cons3 _ _ _ _ (by omega) (by omega) hcont3 hcont, ht]
          have harith : (0xE0 + n / 4096 - 0xE0) * 4096 + (0x80 + n / 64 % 64 - 0x80) * 64 +
              (0x80 + n % 64 - 0x80) = n := by
            have e1 := Nat.div_add_mod n 64
            have e2 := Nat.div_add_mod (n / 64) 64
            omega
          simp only [Option.map_some']
          rw [harith]
        · rw [utf8EncodeScalar, if_neg h1, if_neg h2, if_neg h3]
          simp only [List.cons_append, List.nil_append]
          have e3 : n / 64 / 64 = n / 4096 := by
            rw [Nat.div_div_eq_div_mul]
          have e4 : n / 4096 / 64 = n / 262144 := by
            rw [Nat.div_div_eq_div_mul]
          have hcont4 : utf8Cont4 (0xF0 + n / 262144) (0x80 + n / 4096 % 64) = true := by
            by_cases hf0 : n / 262144 = 0
            · unfold utf8Cont4
              rw [if_pos (by omega)]
              simp only [decide_eq_true_eq]
              omega
            · by_cases hf4 : n / 262144 = 4
              · unfold utf8Cont4
                rw [if_neg (by omega), if_pos (by omega)]
                simp only [decide_eq_true_eq]
                omega
              · unfold utf8Cont4
                rw [if_neg (by omega), if_neg (by omega)]
                unfold utf8Cont
                simp only [decide_eq_true_eq]
                omega
          have hcont_a : utf8Cont (0x80 + n / 64 % 64) = true := by
            unfold utf8Cont
            simp only [decide_eq_true_eq]
            omega
          have hcont_b : utf8Cont (0x80 + n % 64) = true := by
            unfold utf8Cont
            simp only [decide_eq_true_eq]
            omega
          rw [utf8Decode_cons4 _ _ _ _ _ (by omega) (by omega) hcont4 hcont_a hcont_b, ht]
          have harith : (0xF0 + n / 262144 - 0xF0) * 262144 +
              (0x80 + n / 4096 % 64 - 0x80) * 4096 +
              (0x80 + n / 64 % 64 - 0x80) * 64 + (0x80 + n % 64 - 0x80) = n := by
            have e1 := Nat.div_add_mod n 64
            have e2 := Nat.div_add_mod (n / 64) 64
            have e5 := Nat.div_add_mod (n / 4096) 64
            omega
          simp only [Option.map_some']
          rw [harith]

/-! ## MQTT string codec (`decode_string`, `struct.pack(">H", ·)`) -/

/-- Result of `decode_string`: `(None, pos)` is `insufficient`, a successful
parse is `ok`, a `UnicodeDecodeError` escaping to the caller is `exn`. -/
inductive StrResult where
  | exn : StrResult
  | insufficient : Nat → StrResult
  | ok : List Nat → Nat → StrResult
deriving DecidableEq

/-- `struct.pack(">H", n)`: two big-endian bytes; raises (`none`) when the
value does not fit in 16 bits. -/
def pack_u16 (n : Nat) : Option (List Nat) :=
  if n < 65536 then some [n / 256, n % 256] else none

/-- `decode_string(data, pos)`: 2-byte big-endian length prefix then that many
UTF-8 bytes.  Returns `(None, pos)` when fewer than 2 bytes remain,
`(None, pos+2)` when the declared length exceeds the buffer. -/
def decode_string (data : List Nat) (pos : Nat) : StrResult :=
  match data.drop pos with
  | b0 :: b1 :: rest =>
    let str_len := b0 * 256 + b1
    if str_len > rest.length then .insufficient (pos + 2)
    else
      match utf8Decode (rest.take str_len) with
      | some s => .ok s (pos + 2 + str_len)
      | none => .exn
  | _ => .insufficient pos

/-- The string encoding used by the broker (the topic-encoding fragment of
`build_publish_packet`): `struct.pack(">H", len(bytes)) + bytes`. -/
def encode_string (s : List Nat) : Option (List Nat) :=
  match pack_u16 (utf8Encode s).length with
  | some pre => some (pre ++ utf8Encode s)
  | none => none

/-- `build_publish_packet(topic, payload)`: fixed header `0x30` (PUBLISH,
QoS 0, no flags), remaining-length varint, 2-byte topic length, topic bytes,
then the payload verbatim.  `none` models `struct.error` on an oversized
topic (caught by the caller). -/
def build_publish_packet (topic : List Nat) (payload : List Nat) : Option (List Nat) :=
  let topic_bytes := utf8Encode topic
  match pack_u16 topic_bytes.length with
  | some topic_length =>
    let variable_header := topic_length ++ topic_bytes
    let remaining := variable_header ++ payload
    some (0x30 :: (encode_remaining_length remaining.length ++ remaining))
  | none => none

/-- Decoding a string from the middle of a buffer that holds its encoding. -/
theorem decode_string_at (pre extra s : List Nat)
    (hv : ∀ n ∈ s, ValidScalar n) :
    decode_string
        (pre ++ ((utf8Encode s).length / 256) ::
          ((utf8Encode s).length % 256) :: (utf8Encode s ++ extra)) pre.length =
      .ok s (pre.length + 2 + (utf8Encode s).length) := by
  rw [decode_string]
  rw [List.drop_left]
  have hlen : (utf8Encode s).length / 256 * 256 + (utf8Encode s).length % 256 =
      (utf8Encode s).length := by
    have := Nat.div_add_mod (utf8Encode s).length 256
    omega
  simp only [hlen, List.length_append, gt_iff_lt]
  rw [if_neg (by omega)]
  rw [List.take_left]
  rw [utf8Decode_utf8Encode s hv]

/-! ## base64 (`base64.b64encode` / `base64.b64decode`)

`b64decode` is modelled on inputs made of alphabet characters with correct
trailing `=` padding — the only shapes produced by the image pipeline below.
(CPython additionally discards non-alphabet characters first; none occur
here.)  Characters are Unicode scalars; `61` is `'='`. -/

/-- The base64 alphabet, index `0..63` to character. -/
def b64alphabet (i : Nat) : Nat :=
  if i < 26 then 65 + i
  else if i < 52 then 97 + (i - 26)
  else if i < 62 then 48 + (i - 52)
  else if i = 62 then 43
  else 47

/-- Inverse of the alphabet: character to 6-bit value. -/
def b64value (c : Nat) : Option Nat :=
  if 65 ≤ c ∧ c ≤ 90 then some (c - 65)
  else if 97 ≤ c ∧ c ≤ 122 then some (c - 97 + 26)
  else if 48 ≤ c ∧ c ≤ 57 then some (c - 48 + 52)
  else if c = 43 then some 62
  else if c = 47 then some 63
  else none

/-- `base64.b64encode`: 3 bytes to 4 characters, `=`-padded tail. -/
def b64encode : List Nat → List Nat
  | [] => []
  | [a] => [b64alphabet (a / 4), b64alphabet (a % 4 * 16), 61, 61]
  | [a, b] =>
    [b64alphabet (a / 4), b64alphabet (a % 4 * 16 + b / 16), b64alphabet (b % 16 * 4), 61]
  | a :: b :: c :: rest =>
    b64alphabet (a / 4) :: b64alphabet (a % 4 * 16 + b / 16) ::
      b64alphabet (b % 16 * 4 + c / 64) :: b64alphabet (c % 64) :: b64encode rest

/-- `base64.b64decode` on well-formed padded input (excess bits in a final
partial group are discarded, as CPython does). -/
def b64decode : List Nat → Option (List Nat)
  | [] => some []
  | c1 :: c2 :: c3 :: c4 :: rest =>
    (b64value c1).bind (fun a =>
      (b64value c2).bind (fun b =>
        if c3 = 61 then
          if c4 = 61 ∧ rest = [] then some [a * 4 + b / 16] else none
        else
          (b64value c3).bind (fun c =>
            if c4 = 61 then
              if rest = [] then some [a * 4 + b / 16, b % 16 * 16 + c / 4] else none
            else
              (b64value c4).bind (fun d =>
                (b64decode rest).map
                  ((a * 4 + b / 16) :: (b % 16 * 16 + c / 4) :: (c % 4 * 64 + d) :: ·)))))
  | _ => none

theorem b64value_alphabet (i : Nat) (h : i < 64) : b64value (b64alphabet i) = some i := by
  revert h
  revert i
  decide

theorem b64alphabet_ne_pad (i : Nat) (h : i < 64) : b64alphabet i ≠ 61 := by
  revert h
  revert i
  decide

theorem b64alphabet_ascii (i : Nat) (h : i < 64) : b64alphabet i < 128 := by
  revert h
  revert i
  decide

/-- base64 round-trip on byte sequences. -/
theorem b64decode_b64encode (bs : List Nat) (h : ∀ x ∈ bs, x < 256) :
    b64decode (b64encode bs) = some bs := by
  induction bs using b64encode.induct with
  | case1 => rfl
  | case2 a =>
    have ha : a < 256 := h a (by simp)
    rw [b64encode, b64decode,
      b64value_alphabet (a / 4) (by omega),
      b64value_alphabet (a % 4 * 16) (by omega)]
    have e1 : a / 4 * 4 + a % 4 * 16 / 16 = a := by omega
    simp [e1]
    all_goals omega
  | case3 a b =>
    have ha : a < 256 := h a (by simp)
    have hb : b < 256 := h b (by simp)
    rw [b64encode, b64decode,
      b64value_alphabet (a / 4) (by omega),
      b64value_alphabet (a % 4 * 16 + b / 16) (by omega),
      b64value_alphabet (b % 16 * 4) (by omega)]
    have hne : b64alphabet (b % 16 * 4) ≠ 61 :=
      b64alphabet_ne_pad (b % 16 * 4) (by omega)
    have e1 : a / 4 * 4 + (a % 4 * 16 + b / 16) / 16 = a := by omega
    have e2 : (a % 4 * 16 + b / 16) % 16 * 16 + b % 16 * 4 / 4 = b := by omega
    simp [hne, e1, e2]
    all_goals omega
  | case4 a b c rest ih =>
    have ha : a < 256 := h a (by simp)
    have hb : b < 256 := h b (by simp)
    have hc : c < 256 := h c (by simp)
    have hrest : ∀ x ∈ rest, x < 256 := fun x hx => h x (by simp [hx])
    rw [b64encode, b64decode,
      b64value_alphabet (a / 4) (by omega),
      b64value_alphabet (a % 4 * 16 + b / 16) (by omega),
      b64value_alphabet (b % 16 * 4 + c / 64) (by omega),
      b64value_alphabet (c % 64) (by omega),
      ih hrest]
    have hne1 : b64alphabet (b % 16 * 4 + c / 64) ≠ 61 :=
      b64alphabet_ne_pad (b % 16 * 4 + c / 64) (by omega)
    have hne2 : b64alphabet (c % 64) ≠ 61 :=
      b64alphabet_ne_pad (c % 64) (by omega)
    have e1 : a / 4 * 4 + (a % 4 * 16 + b / 16) / 16 = a := by omega
    have e2 : (a % 4 * 16 + b / 16) % 16 * 16 + (b % 16 * 4 + c / 64) / 4 = b := by omega
    have e3 : (b % 16 * 4 + c / 64) % 4 * 64 + c % 64 = c := by omega
    simp [hne1, hne2, e1, e2, e3]

/-! ## Camera-image pipeline (`process_camera_image`) -/

/-- Drop every `'='` (used to build the unpadded variants of a base64 text). -/
def stripPad (l : List Nat) : List Nat := l.filter (fun c => c != 61)

/-- The padding-repair step of `process_camera_image`: right-pad with `'='`
to a multiple of 4 characters. -/
def padFix (s : List Nat) : List Nat :=
  let missing_padding := s.length % 4
  if missing_padding ≠ 0 then s ++ List.replicate (4 - missing_padding) 61 else s

/-- `'base64,' in payload_str` + `payload_str.split('base64,', 1)[1]`:
the suffix after the first occurrence of the marker, if any. -/
def splitAfterMarker (marker : List Nat) : List Nat → Option (List Nat)
  | [] => if marker.isPrefixOf ([] : List Nat) then some [] else none
  | a :: t =>
    if marker.isPrefixOf (a :: t) then some ((a :: t).drop marker.length)
    else splitAfterMarker marker t

/-- Python `str.strip()` whitespace test (the ASCII whitespace characters;
none of the characters handled below are whitespace of any kind). -/
def isPyWS (c : Nat) : Bool := c = 9 ∨ c = 10 ∨ c = 11 ∨ c = 12 ∨ c = 13 ∨ c = 32

/-- Python `str.strip()`. -/
def pyStrip (l : List Nat) : List Nat :=
  ((l.dropWhile isPyWS).reverse.dropWhile isPyWS).reverse

/-- The data-URI marker `'base64,'`. -/
def base64Marker : List Nat := strScalars "base64,"

/-- `process_camera_image` payload processing: strip an optional data-URI
prefix, strip whitespace, repair padding, base64-decode.  `none` models the
caught exception path (log, emit nothing). -/
def process_camera_image (payload_str : List Nat) : Option (List Nat) :=
  let base64_data :=
    match splitAfterMarker base64Marker payload_str with
    | some suffix => suffix
    | none => payload_str
  let base64_data := pyStrip base64_data
  b64decode (padFix base64_data)

/-! ### Pipeline lemmas -/

theorem stripPad_cons_keep (c : Nat) (l : List Nat) (h : c ≠ 61) :
    stripPad (c :: l) = c :: stripPad l := by
  simp [stripPad, List.filter_cons, h]

theorem stripPad_cons_drop (l : List Nat) :
    stripPad (61 :: l) = stripPad l := by
  simp [stripPad, List.filter_cons]

/-- A base64 encoding always has length divisible by 4. -/
theorem b64encode_length_mod4 (bs : List Nat) : (b64encode bs).length % 4 = 0 := by
  induction bs using b64encode.induct with
  | case1 => rfl
  | case2 a =>
    rw [b64encode]
    simp
  | case3 a b =>
    rw [b64encode]
    simp
  | case4 a b c rest ih =>
    rw [b64encode]
    simp only [List.length_cons]
    omega

/-- Every character of a base64 encoding is an alphabet character or `'='`. -/
theorem b64encode_chars (bs : List Nat) (h : ∀ x ∈ bs, x < 256) :
    ∀ c ∈ b64encode bs, (∃ i, i < 64 ∧ c = b64alphabet i) ∨ c = 61 := by
  induction bs using b64encode.induct with
  | case1 => simp [b64encode]
  | case2 a =>
    have ha : a < 256 := h a (by simp)
    intro c hc
    rw [b64encode] at hc
    simp only [List.mem_cons, List.not_mem_nil, or_false] at hc
    rcases hc with rfl | rfl | rfl | rfl
    · exact Or.inl ⟨a / 4, by omega, rfl⟩
    · exact Or.inl ⟨a % 4 * 16, by omega, rfl⟩
    · exact Or.inr rfl
    · exact Or.inr rfl
  | case3 a b =>
    have ha : a < 256 := h a (by simp)
    have hb : b < 256 := h b (by simp)
    intro c hc
    rw [b64encode] at hc
    simp only [List.mem_cons, List.not_mem_nil, or_false] at hc
    rcases hc with rfl | rfl | rfl | rfl
    · exact Or.inl ⟨a / 4, by omega, rfl⟩
    · exact Or.inl ⟨a % 4 * 16 + b / 16, by omega, rfl⟩
    · exact Or.inl ⟨b % 16 * 4, by omega, rfl⟩
    · exact Or.inr rfl
  | case4 a b c rest ih =>
    have ha : a < 256 := h a (by simp)
    have hb : b < 256 := h b (by simp)
    have hc256 : c < 256 := h c (by simp)
    have hrest : ∀ x ∈ rest, x < 256 := fun x hx => h x (by simp [hx])
    intro d hd
    rw [b64encode] at hd
    simp only [List.mem_cons] at hd
    rcases hd with rfl | rfl | rfl | rfl | hd
    · exact Or.inl ⟨a / 4, by omega, rfl⟩
    · exact Or.inl ⟨a % 4 * 16 + b / 16, by omega, rfl⟩
    · exact Or.inl ⟨b % 16 * 4 + c / 64, by omega, rfl⟩
    · exact Or.inl ⟨c % 64, by omega, rfl⟩
    · exact ih hrest d hd

theorem isPyWS_b64alphabet (i : Nat) (h : i < 64) : isPyWS (b64alphabet i) = false := by
  revert h
  revert i
  decide

/-- No character of a base64 encoding is whitespace. -/
theorem b64encode_no_ws (bs : List Nat) (h : ∀ x ∈ bs, x < 256) :
    ∀ c ∈ b64encode bs, isPyWS c = false := by
  intro c hc
  rcases b64encode_chars bs h c hc with ⟨i, hi, rfl⟩ | rfl
  · exact isPyWS_b64alphabet i hi
  · rfl

theorem dropWhile_eq_self_of_all {p : Nat → Bool} (l : List Nat)
    (h : ∀ c ∈ l, p c = false) : l.dropWhile p = l := by
  cases l with
  | nil => rfl
  | cons a t =>
    rw [List.dropWhile_cons_of_neg]
    simp [h a (by simp)]

/-- `str.strip()` leaves a whitespace-free string unchanged. -/
theorem pyStrip_eq_self (l : List Nat) (h : ∀ c ∈ l, isPyWS c = false) :
    pyStrip l = l := by
  unfold pyStrip
  rw [dropWhile_eq_self_of_all l h]
  rw [dropWhile_eq_self_of_all l.reverse (fun c hc => h c (List.mem_reverse.mp hc))]
  exact List.reverse_reverse l

/-- Re-padding the stripped encoding restores the original encoding. -/
theorem padFix_stripPad_b64encode (bs : List Nat) (h : ∀ x ∈ bs, x < 256) :
    padFix (stripPad (b64encode bs)) = b64encode bs := by
  induction bs using b64encode.induct with
  | case1 => rfl
  | case2 a =>
    have ha : a < 256 := h a (by simp)
    rw [b64encode]
    rw [stripPad_cons_keep _ _ (b64alphabet_ne_pad (a / 4) (by omega)),
      stripPad_cons_keep _ _ (b64alphabet_ne_pad (a % 4 * 16) (by omega)),
      stripPad_cons_drop, stripPad_cons_drop]
    rfl
  | case3 a b =>
    have ha : a < 256 := h a (by simp)
    have hb : b < 256 := h b (by simp)
    rw [b64encode]
    rw [stripPad_cons_keep _ _ (b64alphabet_ne_pad (a / 4) (by omega)),
      stripPad_cons_keep _ _ (b64alphabet_ne_pad (a % 4 * 16 + b / 16) (by omega)),
      stripPad_cons_keep _ _ (b64alphabet_ne_pad (b % 16 * 4) (by omega)),
      stripPad_cons_drop]
    rfl
  | case4 a b c rest ih =>
    have ha : a < 256 := h a (by simp)
    have hb : b < 256 := h b (by simp)
    have hc256 : c < 256 := h c (by simp)
    have hrest : ∀ x ∈ rest, x < 256 := fun x hx => h x (by simp [hx])
    rw [b64encode]
    rw [stripPad_cons_keep _ _ (b64alphabet_ne_pad (a / 4) (by omega)),
      stripPad_cons_keep _ _ (b64alphabet_ne_pad (a % 4 * 16 + b / 16) (by omega)),
      stripPad_cons_keep _ _ (b64alphabet_ne_pad (b % 16 * 4 + c / 64) (by omega)),
      stripPad_cons_keep _ _ (b64alphabet_ne_pad (c % 64) (by omega))]
    have hih := ih hrest
    have hmod4 : ((stripPad (b64encode rest)).length + 1 + 1 + 1 + 1) % 4 =
        (stripPad (b64encode rest)).length % 4 := by omega
    unfold padFix at hih ⊢
    simp only [List.length_cons, hmod4]
    by_cases hz : (stripPad (b64encode rest)).length % 4 = 0
    · rw [if_neg (by omega)] at hih
      rw [if_neg (by omega)]
      rw [hih]
    · rw [if_pos (by omega)] at hih
      rw [if_pos (by omega)]
      simp only [List.cons_append]
      rw [hih]

/-- Stripping padding never yields a length `≡ 1 (mod 4)` ("needing three
padding characters"): that class of base64 text is empty. -/
theorem stripPad_b64encode_mod4_ne_one (bs : List Nat) (h : ∀ x ∈ bs, x < 256) :
    (stripPad (b64encode bs)).length % 4 ≠ 1 := by
  induction bs using b64encode.induct with
  | case1 => simp [stripPad, b64encode]
  | case2 a =>
    have ha : a < 256 := h a (by simp)
    rw [b64encode]
    rw [stripPad_cons_keep _ _ (b64alphabet_ne_pad (a / 4) (by omega)),
      stripPad_cons_keep _ _ (b64alphabet_ne_pad (a % 4 * 16) (by omega)),
      stripPad_cons_drop, stripPad_cons_drop]
    simp [stripPad]
  | case3 a b =>
    have ha : a < 256 := h a (by simp)
    have hb : b < 256 := h b (by simp)
    rw [b64encode]
    rw [stripPad_cons_keep _ _ (b64alphabet_ne_pad (a / 4) (by omega)),
      stripPad_cons_keep _ _ (b64alphabet_ne_pad (a % 4 * 16 + b / 16) (by omega)),
      stripPad_cons_keep _ _ (b64alphabet_ne_pad (b % 16 * 4) (by omega)),
      stripPad_cons_drop]
    simp [stripPad]
  | case4 a b c rest ih =>
    have ha : a < 256 := h a (by simp)
    have hb : b < 256 := h b (by simp)
    have hc256 : c < 256 := h c (by simp)
    have hrest : ∀ x ∈ rest, x < 256 := fun x hx => h x (by simp [hx])
    rw [b64encode]
    rw [stripPad_cons_keep _ _ (b64alphabet_ne_pad (a / 4) (by omega)),
      stripPad_cons_keep _ _ (b64alphabet_ne_pad (a % 4 * 16 + b / 16) (by omega)),
      stripPad_cons_keep _ _ (b64alphabet_ne_pad (b % 16 * 4 + c / 64) (by omega)),
      stripPad_cons_keep _ _ (b64alphabet_ne_pad (c % 64) (by omega))]
    have hih := ih hrest
    simp only [List.length_cons]
    omega

/-! ## Server state: client table, subscription registry -/

/-- Client identities (`client_1`, `client_2`, …). -/
abbrev ClientId := String

/-- A topic is a Python string (Unicode scalars). -/
abbrev Topic := List Nat

/-- The broker's shared mutable state: `self.clients` (id ↦ connected flag;
socket and address are irrelevant to the claims) and `self.subscriptions`
(id ↦ list of topics).  Python dicts are modelled as unique-key association
lists in insertion order. -/
structure ServerState where
  clients : List (ClientId × Bool)
  subscriptions : List (ClientId × List Topic)
deriving DecidableEq

/-- `subscribe_topic(client_id, topic)`: create the entry on first use, then
append the topic only if not already present. -/
def subscribe_topic (subs : List (ClientId × List Topic)) (client_id : ClientId)
    (topic : Topic) : List (ClientId × List Topic) :=
  match subs with
  | [] => [(client_id, [topic])]
  | (cid, ts) :: rest =>
    if cid = client_id then
      if topic ∈ ts then (cid, ts) :: rest else (cid, ts ++ [topic]) :: rest
    else (cid, ts) :: subscribe_topic rest client_id topic

/-- `unsubscribe_topic(client_id, topic)`: `list.remove` of the first
occurrence, only when both the entry and the topic are present. -/
def unsubscribe_topic (subs : List (ClientId × List Topic)) (client_id : ClientId)
    (topic : Topic) : List (ClientId × List Topic) :=
  match subs with
  | [] => []
  | (cid, ts) :: rest =>
    if cid = client_id then
      if topic ∈ ts then (cid, ts.erase topic) :: rest else (cid, ts) :: rest
    else (cid, ts) :: unsubscribe_topic rest client_id topic

/-- `disconnect_client(client_id)`: guarded by the outer presence check; under
the lock, the client-table entry and the subscription entry are deleted in the
same step (the flag flip and socket close leave no trace once the entry is
deleted). -/
def disconnect_client (s : ServerState) (client_id : ClientId) : ServerState :=
  if (s.clients.lookup client_id).isSome then
    { clients := s.clients.filter (fun p => p.1 != client_id),
      subscriptions := s.subscriptions.filter (fun p => p.1 != client_id) }
  else s

/-! ## Publish router (`forward_to_subscribers`, `broadcast_message`) -/

/-- Result of one broadcast pass: successful deliveries (recipient, packet
bytes) and the recipients whose `sendall` raised (`writeOk · = false`) or for
whom packet building raised.  In `forward_to_subscribers` a failure is only
logged — nothing else happens to the recipient. -/
structure ForwardResult where
  deliveries : List (ClientId × List Nat)
  failed : List ClientId
deriving DecidableEq

/-- The `for sub_client_id, subscribed_topics in subscriptions_copy.items()`
loop of `forward_to_subscribers`, over the snapshot of both dicts. -/
def forwardGo (clients : List (ClientId × Bool)) (topic : Topic) (payload : List Nat)
    (writeOk : ClientId → Bool) : List (ClientId × List Topic) → ForwardResult
  | [] => ⟨[], []⟩
  | (sub_client_id, subscribed_topics) :: rest =>
    let r := forwardGo clients topic payload writeOk rest
    if topic ∈ subscribed_topics ∧ clients.lookup sub_client_id = some true then
      match build_publish_packet topic payload with
      | some pkt =>
        if writeOk sub_client_id then ⟨(sub_client_id, pkt) :: r.deliveries, r.failed⟩
        else ⟨r.deliveries, sub_client_id :: r.failed⟩
      | none => ⟨r.deliveries, sub_client_id :: r.failed⟩
    else r

/-- `forward_to_subscribers(topic, payload)`: snapshot both maps, then write a
freshly built PUBLISH packet to every connected subscriber; a per-recipient
failure is logged and the loop continues.  The method never mutates
`clients`/`subscriptions` and never schedules a disconnect. -/
def forward_to_subscribers (s : ServerState) (topic : Topic) (payload : List Nat)
    (writeOk : ClientId → Bool) : ForwardResult :=
  forwardGo s.clients topic payload writeOk s.subscriptions

/-- `broadcast_message(message)`: send `message.encode('utf-8')` to every
connected client; collect the failures in `disconnected_clients` during the
pass, and only after the loop call `disconnect_client` on each.  Returns
(deliveries, disconnected_clients, final state). -/
def broadcast_message (s : ServerState) (message : List Nat)
    (writeOk : ClientId → Bool) :
    List (ClientId × List Nat) × List ClientId × ServerState :=
  let clients_copy := s.clients
  let deliveries := (clients_copy.filter (fun p => p.2 && writeOk p.1)).map
    (fun p => (p.1, utf8Encode message))
  let disconnected_clients :=
    (clients_copy.filter (fun p => p.2 && !writeOk p.1)).map Prod.fst
  (deliveries, disconnected_clients, disconnected_clients.foldl disconnect_client s)

/-! ## PUBLISH handler (`handle_publish`) -/

/-- Everything observable from one `handle_publish` call: the
`message_received` event, the `image_data_received` bytes, the broadcast pass,
and the server state afterwards.  `handle_publish` performs no registry
mutation, so `state` always comes back unchanged — recorded explicitly to
contrast with `broadcast_message`, which does disconnect failed recipients. -/
structure PublishOutcome where
  messageEvent : Option (Topic × List Nat × ClientId)
  imageBytes : Option (List Nat)
  forward : ForwardResult
  state : ServerState
deriving DecidableEq

/-- The outcome of a `handle_publish` call that raised and was caught (or
fell through every branch): no event, no image, no forwarding. -/
def emptyPublishOutcome (s : ServerState) : PublishOutcome := ⟨none, none, ⟨[], []⟩, s⟩

/-- The reserved image-ingestion topic `"siot/摄像头"`. -/
def imageTopic : Topic := strScalars "siot/摄像头"

/-- The routing tail of `handle_publish`, from the parsed topic and payload
bytes on: `payload.decode('utf-8')` with the local `except` setting it to
`None`, then `if topic == "siot/摄像头" and payload_str: … elif payload_str:
… ` (a `None` or empty `payload_str` is falsy: nothing is emitted and nothing
is forwarded). -/
def handlePublishRouted (client_id : ClientId) (topic : Topic) (payload : List Nat)
    (s : ServerState) (writeOk : ClientId → Bool) : PublishOutcome :=
  match utf8Decode payload with
  | some payload_str =>
    if topic = imageTopic ∧ payload_str ≠ [] then
      { messageEvent := none, imageBytes := process_camera_image payload_str,
        forward := ⟨[], []⟩, state := s }
    else if topic ≠ imageTopic ∧ payload_str ≠ [] then
      { messageEvent := some (topic, payload_str, client_id),
        imageBytes := none,
        forward := forward_to_subscribers s topic payload writeOk,
        state := s }
    else emptyPublishOutcome s
  | none => emptyPublishOutcome s

/-- `handle_publish(client_id, packet)`: parse flags / remaining length /
topic / optional packet id / payload; then route (`handlePublishRouted`).
Any exception is caught and yields the empty outcome. -/
def handle_publish (client_id : ClientId) (packet : List Nat) (s : ServerState)
    (writeOk : ClientId → Bool) : PublishOutcome :=
  match packet with
  | [] => emptyPublishOutcome s
  | b0 :: _ =>
    let flags := b0 &&& 0x0F
    let qos := (flags >>> 1) &&& 0x03
    match decode_remaining_length packet 1 with
    | .error _ => emptyPublishOutcome s
    | .ok (_, header_end) =>
      match decode_string packet header_end with
      | .exn => emptyPublishOutcome s
      | .insufficient _ => emptyPublishOutcome s
      | .ok topic pos0 =>
        if qos > 0 ∧ packet.length < pos0 + 2 then emptyPublishOutcome s
        else
          let pos := if qos > 0 then pos0 + 2 else pos0
          handlePublishRouted client_id topic (packet.drop pos) s writeOk

/-! ## Framing loop (`handle_client`) -/

/-- The decode loop never moves the position backwards, and consumes at least
one byte when bytes are available. -/
theorem drlGo_pos_le : ∀ (l : List Nat) (pos m v val p : Nat),
    drlGo l pos m v = .ok (val, p) → pos ≤ p ∧ (l ≠ [] → pos + 1 ≤ p) := by
  intro l
  induction l with
  | nil =>
    intro pos m v val p h
    rw [drlGo] at h
    simp only [Except.ok.injEq, Prod.mk.injEq] at h
    refine ⟨by omega, fun hc => absurd rfl hc⟩
  | cons b rest ih =>
    intro pos m v val p h
    rw [drlGo] at h
    by_cases hb : b &&& 128 = 0
    · rw [if_pos hb] at h
      simp at h
      omega
    · rw [if_neg hb] at h
      by_cases hm : m * 128 > 128 * 128 * 128
      · rw [if_pos hm] at h
        simp at h
      · rw [if_neg hm] at h
        have := (ih (pos + 1) (m * 128) (v + (b &&& 127) * m) val p h).1
        omega

/-- A successful remaining-length decode from a position inside the buffer
advances past that position. -/
theorem decode_remaining_length_pos (data : List Nat) (start val p : Nat)
    (h : decode_remaining_length data start = .ok (val, p))
    (hlt : start < data.length) : start + 1 ≤ p := by
  unfold decode_remaining_length at h
  have hne : data.drop start ≠ [] := by
    intro hc
    have := congrArg List.length hc
    simp at this
    omega
  exact (drlGo_pos_le (data.drop start) start 1 0 val p h).2 hne

/-- Result of the inner `while len(buffer) >= 2` packet-extraction loop:
the packets handed to dispatch, the left-over buffer, whether the loop was
left through the DISCONNECT `break`, and the logs it produced. -/
structure InnerResult where
  packets : List (Nat × List Nat)
  buffer : List Nat
  sawDisconnect : Bool
  logs : List String
deriving DecidableEq

/-- The inner framing loop of `handle_client`, verbatim: parse the type from
`buffer[0] >> 4`, decode the remaining length from position 1, on a
`ValueError` log and clear the whole buffer, stop when the buffer is shorter
than the computed total length, otherwise slice one packet out and continue;
a DISCONNECT packet (type 14) only `break`s this inner loop. -/
def processBuffer (buffer : List Nat) : InnerResult :=
  if h2 : 2 ≤ buffer.length then
    let packet_type := (buffer.headD 0 >>> 4) &&& 0x0F
    match hdec : decode_remaining_length buffer 1 with
    | .error _ => ⟨[], [], false, ["剩余长度解码错误，清空缓冲区"]⟩
    | .ok (remaining_length, header_end) =>
      let total_length := header_end + remaining_length
      if h3 : buffer.length < total_length then ⟨[], buffer, false, []⟩
      else
        let packet := buffer.take total_length
        let rest := buffer.drop total_length
        if packet_type = 14 then ⟨[], rest, true, []⟩
        else
          let r := processBuffer rest
          ⟨(packet_type, packet) :: r.packets, r.buffer, r.sawDisconnect, r.logs⟩
  else ⟨[], buffer, false, []⟩
  termination_by buffer.length
  decreasing_by
    have hpos : 1 + 1 ≤ header_end :=
      decode_remaining_length_pos buffer 1 remaining_length header_end hdec (by omega)
    simp only [List.length_drop]
    omega

/-- One socket event seen by the outer `while self.running and ...` loop. -/
inductive RecvEvent where
  | closed : RecvEvent
  | data : List Nat → RecvEvent
deriving DecidableEq

/-- Observable result of running the handler over a finite trace of receive
events: dispatched packets, the final buffer, whether the read loop ended
(and hence the `finally: disconnect_client` teardown ran), and logs. -/
structure TraceResult where
  packets : List (Nat × List Nat)
  buffer : List Nat
  tornDown : Bool
  logs : List String
deriving DecidableEq

/-- The outer read loop of `handle_client` over a finite event trace.  A
`recv` returning no data (`closed`) breaks the loop and teardown runs; after
any `data` event the inner loop's outcome — including its DISCONNECT
`break` — leaves the outer loop running, exactly as in the source, where the
`break` in the `elif packet_type == 14` branch only exits the inner
`while len(buffer) >= 2` loop. -/
def handleClientTrace : List RecvEvent → List Nat → TraceResult
  | [], buffer => ⟨[], buffer, false, []⟩
  | .closed :: _, buffer => ⟨[], buffer, true, []⟩
  | .data d :: evs, buffer =>
    let r := processBuffer (buffer ++ d)
    let c := handleClientTrace evs r.buffer
    ⟨r.packets ++ c.packets, c.buffer, c.tornDown, r.logs ++ c.logs⟩

/-! ## Claim theorems -/

/-- C3: for every `n` in `[0, 268435455]`, decoding the encoding of `n`
yields `n` back (consuming exactly the encoding), the encoding is
minimal-length (1–4 bytes; a multi-byte encoding appears only when the value
does not fit in one fewer byte), and decoding a 5-byte all-continuation
sequence fails with the encoding error. -/
theorem C3_remaining_length_roundtrip (n : Nat) (h : n ≤ 268435455) :
    decode_remaining_length (encode_remaining_length n) 0 =
      .ok (n, (encode_remaining_length n).length) ∧
    1 ≤ (encode_remaining_length n).length ∧
    (encode_remaining_length n).length ≤ 4 ∧
    n < 128 ^ (encode_remaining_length n).length ∧
    ((encode_remaining_length n).length = 1 ∨
      128 ^ ((encode_remaining_length n).length - 1) ≤ n) ∧
    decode_remaining_length [128, 128, 128, 128, 128] 0 = .error "剩余长度编码错误" := by
  refine ⟨decode_encode_remaining_length n h, ?_,
    encode_remaining_length_le_four n h, encode_remaining_length_lt n,
    encode_remaining_length_minimal n, rfl⟩
  exact List.length_pos.mpr (encode_remaining_length_ne_nil n)

theorem C3_remaining_length_roundtrip_witness :
    (12345678 : Nat) ≤ 268435455 ∧
    (decode_remaining_length (encode_remaining_length 12345678) 0 =
      .ok (12345678, (encode_remaining_length 12345678).length) ∧
     1 ≤ (encode_remaining_length 12345678).length ∧
     (encode_remaining_length 12345678).length ≤ 4 ∧
     12345678 < 128 ^ (encode_remaining_length 12345678).length ∧
     ((encode_remaining_length 12345678).length = 1 ∨
       128 ^ ((encode_remaining_length 12345678).length - 1) ≤ 12345678) ∧
     decode_remaining_length [128, 128, 128, 128, 128] 0 = .error "剩余长度编码错误") :=
  ⟨by norm_num, C3_remaining_length_roundtrip 12345678 (by norm_num)⟩

/-- The value the decode loop has accumulated after consuming a (possibly
truncated) byte sequence: `Σ (bᵢ & 127) · 128ⁱ`. -/
def partialVarintValue : List Nat → Nat
  | [] => 0
  | b :: rest => (b &&& 127) + 128 * partialVarintValue rest

/-- C10: on a buffer that ends in the middle of a remaining-length varint
(at most 3 bytes, every one carrying the continuation bit),
`decode_remaining_length` neither raises nor signals "need more data": it
returns the partial accumulated value together with the end-of-buffer
position, exactly as if decoding had completed; consequently the framing
loop treats `[0x30, 0x80]` (a PUBLISH header whose varint is incomplete) as
a complete 2-byte packet and dispatches it. -/
theorem C10_truncated_varint_no_error (data : List Nat)
    (hlen : data.length ≤ 3) (hcont : ∀ b ∈ data, b &&& 128 ≠ 0) :
    decode_remaining_length data 0 = .ok (partialVarintValue data, data.length) ∧
    processBuffer [0x30, 0x80] = ⟨[(3, [0x30, 0x80])], [], false, []⟩ := by
  constructor
  · rcases data with _ | ⟨a, _ | ⟨b, _ | ⟨c, _ | ⟨d, t⟩⟩⟩⟩
    · rfl
    · have ha := hcont a (by simp)
      unfold decode_remaining_length
      simp only [List.drop_zero]
      rw [drlGo, if_neg ha, if_neg (by norm_num), drlGo]
      simp [partialVarintValue]
    · have ha := hcont a (by simp)
      have hb := hcont b (by simp)
      unfold decode_remaining_length
      simp only [List.drop_zero]
      rw [drlGo, if_neg ha, if_neg (by norm_num), drlGo, if_neg hb,
        if_neg (by norm_num), drlGo]
      simp [partialVarintValue]
      ring
    · have ha := hcont a (by simp)
      have hb := hcont b (by simp)
      have hc := hcont c (by simp)
      unfold decode_remaining_length
      simp only [List.drop_zero]
      rw [drlGo, if_neg ha, if_neg (by norm_num), drlGo, if_neg hb,
        if_neg (by norm_num), drlGo, if_neg hc, if_neg (by norm_num), drlGo]
      simp [partialVarintValue]
      ring
    · simp at hlen
  · simp +decide [processBuffer, decode_remaining_length, drlGo]

theorem C10_truncated_varint_no_error_witness :
    (([0x85, 0x92] : List Nat).length ≤ 3 ∧ ∀ b ∈ [0x85, 0x92], b &&& 128 ≠ 0) ∧
    (decode_remaining_length [0x85, 0x92] 0 =
      .ok (partialVarintValue [0x85, 0x92], ([0x85, 0x92] : List Nat).length) ∧
     processBuffer [0x30, 0x80] = ⟨[(3, [0x30, 0x80])], [], false, []⟩) :=
  ⟨⟨by decide, by decide⟩,
    C10_truncated_varint_no_error [0x85, 0x92] (by decide) (by decide)⟩

theorem utf8Encode_replicate_a_length (n : Nat) :
    (utf8Encode (List.replicate n 97)).length = n := by
  induction n with
  | zero => rfl
  | succ k ih =>
    rw [List.replicate_succ]
    have hsplit : utf8Encode (97 :: List.replicate k 97) =
        utf8EncodeScalar 97 ++ utf8Encode (List.replicate k 97) := by
      simp [utf8Encode]
    rw [hsplit]
    simp only [List.length_append, ih]
    rw [utf8EncodeScalar, if_pos (by norm_num)]
    simp only [List.length_cons, List.length_nil]
    omega

theorem encode_string_none_of_long (s : List Nat)
    (h : 65536 ≤ (utf8Encode s).length) : encode_string s = none := by
  unfold encode_string pack_u16
  rw [if_neg (by omega)]

/-- C9 counterexample: a 65536-character string has no 2-byte-length-prefixed
encoding at all (`struct.pack(">H", 65536)` raises), so the round-trip fails
for it. -/
theorem C9_oversized_string_counterexample :
    encode_string (List.replicate 65536 97) = none ∧
    ¬ ∃ e, encode_string (List.replicate 65536 97) = some e ∧
        decode_string e 0 = .ok (List.replicate 65536 97) e.length := by
  have hn : encode_string (List.replicate 65536 97) = none := by
    apply encode_string_none_of_long
    rw [utf8Encode_replicate_a_length]
  refine ⟨hn, ?_⟩
  rintro ⟨e, he, -⟩
  rw [hn] at he
  exact Option.noConfusion he

/-- C9 (amended to strings whose UTF-8 form fits the 2-byte length prefix):
the string encoding round-trips — `decode_string (encode_string s) = s`,
consuming the whole buffer — and decoding any buffer holding fewer bytes than
its declared length reports insufficient data (`(None, pos+2)`) instead of
returning a string. -/
theorem C9_string_codec_roundtrip (s : List Nat)
    (hv : ∀ n ∈ s, ValidScalar n) (hlen : (utf8Encode s).length ≤ 65535) :
    (∃ e, encode_string s = some e ∧ e.length = 2 + (utf8Encode s).length ∧
      decode_string e 0 = .ok s e.length) ∧
    (∀ (data : List Nat) (pos b0 b1 : Nat) (rest : List Nat),
      data.drop pos = b0 :: b1 :: rest → b0 * 256 + b1 > rest.length →
      decode_string data pos = .insufficient (pos + 2)) := by
  constructor
  · have henc : encode_string s =
        some (((utf8Encode s).length / 256 ::
          (utf8Encode s).length % 256 :: (utf8Encode s ++ []))) := by
      unfold encode_string pack_u16
      rw [if_pos (by omega)]
      simp
    refine ⟨_, henc, ?_, ?_⟩
    · simp only [List.length_cons, List.length_append, List.length_nil]
      omega
    · have hdec := decode_string_at [] [] s hv
      simp only [List.nil_append, List.length_nil] at hdec
      rw [hdec]
      simp only [List.length_cons, List.length_append, List.length_nil, StrResult.ok.injEq,
        true_and]
      omega
  · intro data pos b0 b1 rest hdrop hgt
    unfold decode_string
    rw [hdrop]
    simp only [if_pos hgt]

theorem C9_string_codec_roundtrip_witness :
    ((∀ n ∈ strScalars "主题/видео", ValidScalar n) ∧
      (utf8Encode (strScalars "主题/видео")).length ≤ 65535) ∧
    ((∃ e, encode_string (strScalars "主题/видео") = some e ∧
        e.length = 2 + (utf8Encode (strScalars "主题/видео")).length ∧
        decode_string e 0 = .ok (strScalars "主题/видео") e.length) ∧
     (∀ (data : List Nat) (pos b0 b1 : Nat) (rest : List Nat),
        data.drop pos = b0 :: b1 :: rest → b0 * 256 + b1 > rest.length →
        decode_string data pos = .insufficient (pos + 2))) :=
  ⟨⟨by decide, by decide⟩,
    C9_string_codec_roundtrip (strScalars "主题/видео") (by decide) (by decide)⟩

/-! ### Registry lemmas (C7) -/

theorem subscribe_topic_idem (subs : List (ClientId × List Topic))
    (client_id : ClientId) (topic : Topic) :
    subscribe_topic (subscribe_topic subs client_id topic) client_id topic =
      subscribe_topic subs client_id topic := by
  induction subs with
  | nil =>
    rw [subscribe_topic, subscribe_topic]
    rw [if_pos rfl, if_pos (by simp)]
  | cons p rest ih =>
    obtain ⟨cid, ts⟩ := p
    rw [subscribe_topic]
    by_cases hc : cid = client_id
    · rw [if_pos hc]
      by_cases ht : topic ∈ ts
      · rw [if_pos ht, subscribe_topic, if_pos hc, if_pos ht]
      · rw [if_neg ht, subscribe_topic, if_pos hc, if_pos (by simp)]
    · rw [if_neg hc, subscribe_topic, if_neg hc, ih]

theorem subscribe_topic_nodup (subs : List (ClientId × List Topic))
    (client_id : ClientId) (topic : Topic)
    (h : ∀ p ∈ subs, p.2.Nodup) :
    ∀ p ∈ subscribe_topic subs client_id topic, p.2.Nodup := by
  induction subs with
  | nil =>
    rw [subscribe_topic]
    intro p hp
    simp only [List.mem_singleton] at hp
    subst hp
    simp
  | cons q rest ih =>
    obtain ⟨cid, ts⟩ := q
    rw [subscribe_topic]
    by_cases hc : cid = client_id
    · rw [if_pos hc]
      by_cases ht : topic ∈ ts
      · rw [if_pos ht]
        exact h
      · rw [if_neg ht]
        intro p hp
        rcases List.mem_cons.mp hp with rfl | hmem
        · have hts : ts.Nodup := h (cid, ts) (by simp)
          simp only
          rw [List.nodup_append]
          exact ⟨hts, List.nodup_singleton topic, by simpa using ht⟩
        · exact h p (List.mem_cons_of_mem _ hmem)
    · rw [if_neg hc]
      intro p hp
      rcases List.mem_cons.mp hp with rfl | hmem
      · exact h (cid, ts) (by simp)
      · exact ih (fun q hq => h q (List.mem_cons_of_mem _ hq)) p hmem

theorem subscribe_topic_lookup_mem (subs : List (ClientId × List Topic))
    (client_id : ClientId) (topic : Topic) :
    ∀ ts, (subscribe_topic subs client_id topic).lookup client_id = some ts →
      topic ∈ ts := by
  induction subs with
  | nil =>
    intro ts h
    rw [subscribe_topic] at h
    simp [List.lookup] at h
    subst h
    simp
  | cons q rest ih =>
    obtain ⟨cid, ts0⟩ := q
    intro ts h
    rw [subscribe_topic] at h
    by_cases hc : cid = client_id
    · subst hc
      by_cases ht : topic ∈ ts0
      · rw [if_pos rfl, if_pos ht] at h
        simp [List.lookup] at h
        subst h
        exact ht
      · rw [if_pos rfl, if_neg ht] at h
        simp [List.lookup] at h
        subst h
        simp
    · have hbeq : (client_id == cid) = false := by
        simp [beq_eq_false_iff_ne]
        exact fun he => hc he.symm
      rw [if_neg hc] at h
      simp [List.lookup, hbeq] at h
      exact ih ts h

theorem unsubscribe_topic_noop (subs : List (ClientId × List Topic))
    (client_id : ClientId) (topic : Topic)
    (h : ∀ ts, subs.lookup client_id = some ts → topic ∉ ts) :
    unsubscribe_topic subs client_id topic = subs := by
  induction subs with
  | nil => rfl
  | cons q rest ih =>
    obtain ⟨cid, ts⟩ := q
    rw [unsubscribe_topic]
    by_cases hc : cid = client_id
    · subst hc
      have hni : topic ∉ ts := h ts (by simp [List.lookup])
      rw [if_pos rfl, if_neg hni]
    · have hbeq : (client_id == cid) = false := by
        simp [beq_eq_false_iff_ne]
        exact fun he => hc he.symm
      rw [if_neg hc]
      rw [ih]
      intro ts' h'
      apply h
      simp [List.lookup, hbeq]
      exact h'

theorem lookup_some_mem {β : Type} (l : List (ClientId × β)) (x : ClientId) (v : β)
    (h : l.lookup x = some v) : (x, v) ∈ l := by
  induction l with
  | nil => simp [List.lookup] at h
  | cons q rest ih =>
    obtain ⟨k, w⟩ := q
    by_cases hk : x = k
    · subst hk
      simp [List.lookup] at h
      subst h
      simp
    · have hbeq : (x == k) = false := by
        simp [beq_eq_false_iff_ne]
        exact hk
      simp [List.lookup, hbeq] at h
      exact List.mem_cons_of_mem _ (ih h)

/-- Occurrence count of a topic in a topic list. -/
def countOcc (t : Topic) : List Topic → Nat
  | [] => 0
  | x :: rest => (if x = t then 1 else 0) + countOcc t rest

theorem countOcc_eq_zero (t : Topic) (l : List Topic) (h : t ∉ l) : countOcc t l = 0 := by
  induction l with
  | nil => rfl
  | cons x rest ih =>
    rw [countOcc]
    have hne : ¬ x = t := by
      intro he
      exact h (he ▸ List.mem_cons_self x rest)
    rw [if_neg hne]
    simp [ih (fun hm => h (List.mem_cons_of_mem x hm))]

theorem countOcc_eq_one (t : Topic) (l : List Topic) (hm : t ∈ l) (hnd : l.Nodup) :
    countOcc t l = 1 := by
  induction l with
  | nil => simp at hm
  | cons x rest ih =>
    rw [countOcc]
    by_cases hx : x = t
    · rw [if_pos hx]
      subst hx
      have hnin : x ∉ rest := (List.nodup_cons.mp hnd).1
      rw [countOcc_eq_zero x rest hnin]
    · rw [if_neg hx]
      have hmem : t ∈ rest := by
        rcases List.mem_cons.mp hm with rfl | hmem
        · exact absurd rfl hx
        · exact hmem
      simp [ih hmem (List.nodup_cons.mp hnd).2]

/-- C7: `subscribe_topic` is idempotent (a second identical subscription
changes nothing), it preserves duplicate-freeness of every client's topic
list, after it the subscribing client's list holds the topic exactly once,
and `unsubscribe_topic` of a pair that is not present leaves the registry
unchanged. -/
theorem C7_registry_idempotent (subs : List (ClientId × List Topic))
    (client_id : ClientId) (topic : Topic)
    (hnodup : ∀ p ∈ subs, p.2.Nodup) :
    subscribe_topic (subscribe_topic subs client_id topic) client_id topic =
      subscribe_topic subs client_id topic ∧
    (∀ p ∈ subscribe_topic subs client_id topic, p.2.Nodup) ∧
    (∀ ts, (subscribe_topic subs client_id topic).lookup client_id = some ts →
      countOcc topic ts = 1) ∧
    ((∀ ts, subs.lookup client_id = some ts → topic ∉ ts) →
      unsubscribe_topic subs client_id topic = subs) := by
  refine ⟨subscribe_topic_idem subs client_id topic,
    subscribe_topic_nodup subs client_id topic hnodup, ?_,
    unsubscribe_topic_noop subs client_id topic⟩
  intro ts hts
  have hmem : topic ∈ ts := subscribe_topic_lookup_mem subs client_id topic ts hts
  have hpair : (client_id, ts) ∈ subscribe_topic subs client_id topic :=
    lookup_some_mem _ client_id ts hts
  have hnd : ts.Nodup :=
    subscribe_topic_nodup subs client_id topic hnodup (client_id, ts) hpair
  exact countOcc_eq_one topic ts hmem hnd

theorem C7_registry_idempotent_witness :
    (∀ p ∈ [("client_1", [[116]])], (Prod.snd p).Nodup) ∧
    (subscribe_topic (subscribe_topic [("client_1", [[116]])] "client_1" [117]) "client_1" [117] =
      subscribe_topic [("client_1", [[116]])] "client_1" [117] ∧
    (∀ p ∈ subscribe_topic [("client_1", [[116]])] "client_1" [117], (Prod.snd p).Nodup) ∧
    (∀ ts, (subscribe_topic [("client_1", [[116]])] "client_1" [117]).lookup "client_1" = some ts →
      countOcc [117] ts = 1) ∧
    ((∀ ts, ([("client_1", [[116]])] : List (ClientId × List Topic)).lookup "client_1" = some ts →
        [117] ∉ ts) →
      unsubscribe_topic [("client_1", [[116]])] "client_1" [117] = [("client_1", [[116]])])) :=
  ⟨by decide, C7_registry_idempotent [("client_1", [[116]])] "client_1" [117] (by decide)⟩

/-! ### Disconnect lemmas (C6) -/

theorem lookup_filter_ne {β : Type} (l : List (ClientId × β)) (x : ClientId) :
    (l.filter (fun p => p.1 != x)).lookup x = none := by
  induction l with
  | nil => rfl
  | cons q rest ih =>
    obtain ⟨k, v⟩ := q
    by_cases hk : k = x
    · subst hk
      simp only [List.filter_cons]
      rw [if_neg (by simp)]
      exact ih
    · simp only [List.filter_cons]
      rw [if_pos (by simp [hk])]
      have hbeq : (x == k) = false := by
        simp [beq_eq_false_iff_ne]
        exact fun he => hk he.symm
      simp only [List.lookup, hbeq]
      exact ih

/-- Every delivery of a broadcast pass goes to a client that is present and
connected in the snapshot. -/
theorem forwardGo_deliveries_mem (clients : List (ClientId × Bool)) (topic : Topic)
    (payload : List Nat) (writeOk : ClientId → Bool)
    (subs : List (ClientId × List Topic)) :
    ∀ d ∈ (forwardGo clients topic payload writeOk subs).deliveries,
      clients.lookup d.1 = some true := by
  induction subs with
  | nil =>
    intro d hd
    simp [forwardGo] at hd
  | cons q rest ih =>
    obtain ⟨cid, ts⟩ := q
    intro d hd
    rw [forwardGo] at hd
    by_cases hcond : topic ∈ ts ∧ clients.lookup cid = some true
    · rw [if_pos hcond] at hd
      rcases hb : build_publish_packet topic payload with _ | pkt
      · rw [hb] at hd
        dsimp only at hd
        exact ih d hd
      · rw [hb] at hd
        dsimp only at hd
        by_cases hw : writeOk cid = true
        · rw [if_pos hw] at hd
          dsimp only at hd
          rcases List.mem_cons.mp hd with rfl | hmem
          · exact hcond.2
          · exact ih d hmem
        · rw [if_neg hw] at hd
          dsimp only at hd
          exact ih d hd
    · rw [if_neg hcond] at hd
      exact ih d hd

/-- C6: after `disconnect_client(id)`, the identity is absent from the client
table and from the subscription map (given the registry invariant that every
subscription entry belongs to a client in the table), every delivery of any
later broadcast pass goes to some other client, and a second
`disconnect_client(id)` is a no-op (removal happens at most once). -/
theorem C6_disconnect_removes_client (s : ServerState) (client_id : ClientId)
    (hinv : ∀ p ∈ s.subscriptions, (s.clients.lookup p.1).isSome) :
    (disconnect_client s client_id).clients.lookup client_id = none ∧
    (disconnect_client s client_id).subscriptions.lookup client_id = none ∧
    (∀ (topic : Topic) (payload : List Nat) (writeOk : ClientId → Bool),
      ∀ d ∈ (forward_to_subscribers (disconnect_client s client_id)
          topic payload writeOk).deliveries, d.1 ≠ client_id) ∧
    disconnect_client (disconnect_client s client_id) client_id =
      disconnect_client s client_id := by
  by_cases hpres : (s.clients.lookup client_id).isSome
  · have hstate : disconnect_client s client_id =
        { clients := s.clients.filter (fun p => p.1 != client_id),
          subscriptions := s.subscriptions.filter (fun p => p.1 != client_id) } := by
      unfold disconnect_client
      rw [if_pos hpres]
    have hcl : (disconnect_client s client_id).clients.lookup client_id = none := by
      rw [hstate]
      exact lookup_filter_ne s.clients client_id
    refine ⟨hcl, ?_, ?_, ?_⟩
    · rw [hstate]
      exact lookup_filter_ne s.subscriptions client_id
    · intro topic payload writeOk d hd heq
      have := forwardGo_deliveries_mem (disconnect_client s client_id).clients
        topic payload writeOk (disconnect_client s client_id).subscriptions d hd
      rw [heq, hcl] at this
      exact Option.noConfusion this
    · rw [disconnect_client, hcl]
      simp
  · have hstate : disconnect_client s client_id = s := by
      unfold disconnect_client
      rw [if_neg hpres]
    have hcl : s.clients.lookup client_id = none := by
      rcases hl : s.clients.lookup client_id with _ | v
      · rfl
      · rw [hl] at hpres
        simp at hpres
    have hsub : s.subscriptions.lookup client_id = none := by
      rcases hl : s.subscriptions.lookup client_id with _ | ts
      · rfl
      · have hmem := lookup_some_mem s.subscriptions client_id ts hl
        have := hinv (client_id, ts) hmem
        rw [hcl] at this
        simp at this
    refine ⟨by rw [hstate]; exact hcl, by rw [hstate]; exact hsub, ?_, ?_⟩
    · intro topic payload writeOk d hd heq
      have := forwardGo_deliveries_mem (disconnect_client s client_id).clients
        topic payload writeOk (disconnect_client s client_id).subscriptions d hd
      rw [heq, hstate, hcl] at this
      exact Option.noConfusion this
    · rw [hstate, hstate]

theorem C6_disconnect_removes_client_witness :
    (∀ p ∈ (⟨[("client_1", true)], [("client_1", [[116]])]⟩ : ServerState).subscriptions,
        ((⟨[("client_1", true)], [("client_1", [[116]])]⟩ : ServerState).clients.lookup p.1).isSome) ∧
    ((disconnect_client ⟨[("client_1", true)], [("client_1", [[116]])]⟩ "client_1").clients.lookup "client_1" = none ∧
     (disconnect_client ⟨[("client_1", true)], [("client_1", [[116]])]⟩ "client_1").subscriptions.lookup "client_1" = none ∧
     (∀ (topic : Topic) (payload : List Nat) (writeOk : ClientId → Bool),
       ∀ d ∈ (forward_to_subscribers
           (disconnect_client ⟨[("client_1", true)], [("client_1", [[116]])]⟩ "client_1")
           topic payload writeOk).deliveries, d.1 ≠ "client_1") ∧
     disconnect_client (disconnect_client ⟨[("client_1", true)], [("client_1", [[116]])]⟩ "client_1") "client_1" =
       disconnect_client ⟨[("client_1", true)], [("client_1", [[116]])]⟩ "client_1") :=
  ⟨by decide,
    C6_disconnect_removes_client ⟨[("client_1", true)], [("client_1", [[116]])]⟩ "client_1" (by decide)⟩

/-- C5: when remaining-length decoding fails on the packet at the head of the
accumulated buffer, the inner loop discards the entire buffer, dispatches
nothing, logs the failure, and does not end the read loop — the connection
keeps processing all later receive events exactly as if it had started with
an empty buffer.  (Each connection's buffer is handler-local state — a pure
function of that connection's own event trace — so another connection's
trace and registry state are untouched by construction.) -/
theorem C5_framing_error_clears_buffer (buffer0 d : List Nat)
    (evs : List RecvEvent) (msg : String)
    (hlen : 2 ≤ (buffer0 ++ d).length)
    (herr : decode_remaining_length (buffer0 ++ d) 1 = .error msg) :
    processBuffer (buffer0 ++ d) = ⟨[], [], false, ["剩余长度解码错误，清空缓冲区"]⟩ ∧
    handleClientTrace (.data d :: evs) buffer0 =
      ⟨(handleClientTrace evs []).packets, (handleClientTrace evs []).buffer,
        (handleClientTrace evs []).tornDown,
        "剩余长度解码错误，清空缓冲区" :: (handleClientTrace evs []).logs⟩ := by
  have h1 : processBuffer (buffer0 ++ d) = ⟨[], [], false, ["剩余长度解码错误，清空缓冲区"]⟩ := by
    rw [processBuffer]
    rw [dif_pos hlen]
    rw [herr]
  refine ⟨h1, ?_⟩
  rw [handleClientTrace]
  rw [h1]
  simp

theorem C5_framing_error_clears_buffer_witness :
    (2 ≤ (([] : List Nat) ++ [0x30, 0x80, 0x80, 0x80, 0x80]).length ∧
      decode_remaining_length (([] : List Nat) ++ [0x30, 0x80, 0x80, 0x80, 0x80]) 1 =
        .error "剩余长度编码错误") ∧
    (processBuffer (([] : List Nat) ++ [0x30, 0x80, 0x80, 0x80, 0x80]) =
        ⟨[], [], false, ["剩余长度解码错误，清空缓冲区"]⟩ ∧
     handleClientTrace (.data [0x30, 0x80, 0x80, 0x80, 0x80] :: [RecvEvent.data [0xC0, 0x00]]) [] =
        ⟨(handleClientTrace [RecvEvent.data [0xC0, 0x00]] []).packets,
          (handleClientTrace [RecvEvent.data [0xC0, 0x00]] []).buffer,
          (handleClientTrace [RecvEvent.data [0xC0, 0x00]] []).tornDown,
          "剩余长度解码错误，清空缓冲区" :: (handleClientTrace [RecvEvent.data [0xC0, 0x00]] []).logs⟩) :=
  ⟨⟨by simp, rfl⟩,
    C5_framing_error_clears_buffer [] [0x30, 0x80, 0x80, 0x80, 0x80]
      [RecvEvent.data [0xC0, 0x00]] "剩余长度编码错误" (by simp) rfl⟩

/-- C4 (code bug): the handler extracts a complete DISCONNECT packet
(`0xE0 0x00`), but the `break` in the `elif packet_type == 14` branch only
exits the inner packet loop — the outer read loop keeps running, no teardown
happens (`tornDown = false`), and a later receive on the same connection is
still processed (a PINGREQ, type 12, is dispatched).  The claim — matching
the spec and the MQTT protocol — requires the read loop to end and session
teardown to run with no further input. -/
theorem C4_disconnect_does_not_end_loop :
    processBuffer [0xE0, 0x00] = ⟨[], [], true, []⟩ ∧
    handleClientTrace [RecvEvent.data [0xE0, 0x00]] [] = ⟨[], [], false, []⟩ ∧
    handleClientTrace [RecvEvent.data [0xE0, 0x00], RecvEvent.data [0xC0, 0x00]] [] =
      ⟨[(12, [0xC0, 0x00])], [], false, []⟩ := by
  refine ⟨?_, ?_, ?_⟩ <;>
    simp +decide [handleClientTrace, processBuffer, decode_remaining_length, drlGo]

/-! ### Parsing a freshly built PUBLISH packet (C1, C2) -/

/-- A packet produced by `build_publish_packet` (within the varint range)
parses back in `handle_publish` to exactly the original topic and payload:
the handler reduces to the routing tail.  The packet starts with `0x30`
(PUBLISH, QoS 0, so no packet identifier is present) and carries the payload
bytes verbatim as its suffix. -/
theorem handle_publish_build_packet (client_id : ClientId) (topic : Topic)
    (payload : List Nat) (s : ServerState) (writeOk : ClientId → Bool) (pkt : List Nat)
    (hv : ∀ n ∈ topic, ValidScalar n)
    (hrem : 2 + (utf8Encode topic).length + payload.length ≤ 268435455)
    (hb : build_publish_packet topic payload = some pkt) :
    handle_publish client_id pkt s writeOk =
      handlePublishRouted client_id topic payload s writeOk ∧
    pkt.headD 0 = 0x30 ∧ List.IsSuffix payload pkt := by
  have htb : (utf8Encode topic).length < 65536 := by
    by_contra hge
    push_neg at hge
    unfold build_publish_packet pack_u16 at hb
    dsimp only at hb
    rw [if_neg (by omega)] at hb
    exact Option.noConfusion hb
  have hR : ((([(utf8Encode topic).length / 256, (utf8Encode topic).length % 256] ++
      utf8Encode topic) ++ payload)).length =
      2 + (utf8Encode topic).length + payload.length := by
    simp [List.length_append]
    omega
  have hpkt : pkt = 0x30 ::
      (encode_remaining_length (2 + (utf8Encode topic).length + payload.length) ++
        (([(utf8Encode topic).length / 256, (utf8Encode topic).length % 256] ++
          utf8Encode topic) ++ payload)) := by
    unfold build_publish_packet pack_u16 at hb
    dsimp only at hb
    rw [if_pos htb] at hb
    dsimp only at hb
    rw [hR] at hb
    simp only [Option.some.injEq] at hb
    exact hb.symm
  subst hpkt
  refine ⟨?_, rfl, ?_⟩
  · rw [handle_publish]
    have hdec1 : decode_remaining_length
        (0x30 :: (encode_remaining_length (2 + (utf8Encode topic).length + payload.length) ++
          (([(utf8Encode topic).length / 256, (utf8Encode topic).length % 256] ++
            utf8Encode topic) ++ payload))) 1 =
        .ok (2 + (utf8Encode topic).length + payload.length,
          1 + (encode_remaining_length
            (2 + (utf8Encode topic).length + payload.length)).length) := by
      unfold decode_remaining_length
      have hdrop1 : (0x30 ::
          (encode_remaining_length (2 + (utf8Encode topic).length + payload.length) ++
            (([(utf8Encode topic).length / 256, (utf8Encode topic).length % 256] ++
              utf8Encode topic) ++ payload))).drop 1 =
          encode_remaining_length (2 + (utf8Encode topic).length + payload.length) ++
            (([(utf8Encode topic).length / 256, (utf8Encode topic).length % 256] ++
              utf8Encode topic) ++ payload) := rfl
      rw [hdrop1]
      have h0 := drlGo_encode (2 + (utf8Encode topic).length + payload.length) 0
        ((([(utf8Encode topic).length / 256, (utf8Encode topic).length % 256] ++
          utf8Encode topic) ++ payload)) 1 0 (by omega) (by norm_num; omega)
      simpa using h0
    rw [hdec1]
    dsimp only
    have hassoc : (0x30 ::
        (encode_remaining_length (2 + (utf8Encode topic).length + payload.length) ++
          (([(utf8Encode topic).length / 256, (utf8Encode topic).length % 256] ++
            utf8Encode topic) ++ payload))) =
        (0x30 :: encode_remaining_length (2 + (utf8Encode topic).length + payload.length)) ++
          ((utf8Encode topic).length / 256 :: (utf8Encode topic).length % 256 ::
            (utf8Encode topic ++ payload)) := by
      simp
    have hplen : (0x30 :: encode_remaining_length
        (2 + (utf8Encode topic).length + payload.length)).length =
        1 + (encode_remaining_length
          (2 + (utf8Encode topic).length + payload.length)).length := by
      simp only [List.length_cons]
      omega
    have hdec2 : decode_string (0x30 ::
        (encode_remaining_length (2 + (utf8Encode topic).length + payload.length) ++
          (([(utf8Encode topic).length / 256, (utf8Encode topic).length % 256] ++
            utf8Encode topic) ++ payload)))
        (1 + (encode_remaining_length
          (2 + (utf8Encode topic).length + payload.length)).length) =
        .ok topic (1 + (encode_remaining_length
          (2 + (utf8Encode topic).length + payload.length)).length + 2 +
          (utf8Encode topic).length) := by
      rw [hassoc, ← hplen]
      exact decode_string_at _ payload topic hv
    rw [hdec2]
    dsimp only
    rw [if_neg (fun hcon => absurd hcon.1 (by decide))]
    rw [if_neg (by decide)]
    have hdrop2 : (0x30 ::
        (encode_remaining_length (2 + (utf8Encode topic).length + payload.length) ++
          (([(utf8Encode topic).length / 256, (utf8Encode topic).length % 256] ++
            utf8Encode topic) ++ payload))).drop
        (1 + (encode_remaining_length
          (2 + (utf8Encode topic).length + payload.length)).length + 2 +
          (utf8Encode topic).length) = payload := by
      have hassoc2 : (0x30 ::
          (encode_remaining_length (2 + (utf8Encode topic).length + payload.length) ++
            (([(utf8Encode topic).length / 256, (utf8Encode topic).length % 256] ++
              utf8Encode topic) ++ payload))) =
          ((0x30 :: encode_remaining_length (2 + (utf8Encode topic).length + payload.length)) ++
            ([(utf8Encode topic).length / 256, (utf8Encode topic).length % 256] ++
              utf8Encode topic)) ++ payload := by
        simp
      have hlen2 : ((0x30 :: encode_remaining_length
          (2 + (utf8Encode topic).length + payload.length)) ++
            ([(utf8Encode topic).length / 256, (utf8Encode topic).length % 256] ++
              utf8Encode topic)).length =
          1 + (encode_remaining_length
            (2 + (utf8Encode topic).length + payload.length)).length + 2 +
            (utf8Encode topic).length := by
        simp [List.length_append]
        omega
      rw [hassoc2, ← hlen2, List.drop_left]
    rw [hdrop2]
  · refine ⟨0x30 :: (encode_remaining_length
      (2 + (utf8Encode topic).length + payload.length) ++
        ([(utf8Encode topic).length / 256, (utf8Encode topic).length % 256] ++
          utf8Encode topic)), ?_⟩
    simp

/-- When every write succeeds, a broadcast pass delivers the freshly built
packet to exactly the connected subscribers of the topic, in registry order,
and nothing fails. -/
theorem forwardGo_all_ok (clients : List (ClientId × Bool)) (topic : Topic)
    (payload : List Nat) (writeOk : ClientId → Bool) (pkt : List Nat)
    (hall : ∀ c, writeOk c = true)
    (hb : build_publish_packet topic payload = some pkt) :
    ∀ subs, (forwardGo clients topic payload writeOk subs).deliveries =
      (subs.filter (fun p => decide (topic ∈ p.2 ∧ clients.lookup p.1 = some true))).map
        (fun p => (p.1, pkt)) ∧
      (forwardGo clients topic payload writeOk subs).failed = [] := by
  intro subs
  induction subs with
  | nil => exact ⟨rfl, rfl⟩
  | cons q rest ih =>
    obtain ⟨cid, ts⟩ := q
    rw [forwardGo]
    by_cases hcond : topic ∈ ts ∧ clients.lookup cid = some true
    · rw [if_pos hcond, hb]
      dsimp only
      rw [if_pos (hall cid)]
      constructor
      · rw [List.filter_cons]
        rw [if_pos (by simpa using hcond)]
        simp only [List.map_cons]
        rw [ih.1]
      · exact ih.2
    · rw [if_neg hcond]
      constructor
      · rw [List.filter_cons]
        rw [if_neg (by simpa using hcond)]
        exact ih.1
      · exact ih.2

/-- C1 (amended): a PUBLISH on a non-image topic is forwarded — as the very
packet `build_publish_packet` produces: fixed header `0x30` (QoS 0, no packet
identifier), payload bytes verbatim as the suffix — to exactly the connected
sessions subscribed to that topic, but only when the payload is non-empty
valid UTF-8; a payload that is empty or not valid UTF-8 is not forwarded to
anyone (the code guards forwarding with the truthiness of the decoded
payload string). -/
theorem C1_publish_forwarding (client_id : ClientId) (topic : Topic)
    (payload : List Nat) (s : ServerState) (writeOk : ClientId → Bool) (pkt : List Nat)
    (hv : ∀ n ∈ topic, ValidScalar n)
    (hrem : 2 + (utf8Encode topic).length + payload.length ≤ 268435455)
    (hb : build_publish_packet topic payload = some pkt)
    (hni : topic ≠ imageTopic)
    (hall : ∀ c, writeOk c = true) :
    ((∃ ps, utf8Decode payload = some ps ∧ ps ≠ []) →
      (handle_publish client_id pkt s writeOk).forward.deliveries =
        (s.subscriptions.filter
          (fun p => decide (topic ∈ p.2 ∧ s.clients.lookup p.1 = some true))).map
          (fun p => (p.1, pkt)) ∧
      (handle_publish client_id pkt s writeOk).forward.failed = [] ∧
      (handle_publish client_id pkt s writeOk).imageBytes = none ∧
      pkt.headD 0 = 0x30 ∧ List.IsSuffix payload pkt) ∧
    ((utf8Decode payload = none ∨ utf8Decode payload = some []) →
      handle_publish client_id pkt s writeOk = emptyPublishOutcome s) := by
  obtain ⟨hmain, hhead, hsuf⟩ :=
    handle_publish_build_packet client_id topic payload s writeOk pkt hv hrem hb
  constructor
  · rintro ⟨ps, hps, hne⟩
    rw [hmain, handlePublishRouted, hps]
    dsimp only
    rw [if_neg (fun hc => hni hc.1), if_pos ⟨hni, hne⟩]
    have hfwd := forwardGo_all_ok s.clients topic payload writeOk pkt hall hb s.subscriptions
    exact ⟨hfwd.1, hfwd.2, rfl, hhead, hsuf⟩
  · rintro (hnone | hempty)
    · rw [hmain, handlePublishRouted, hnone]
    · rw [hmain, handlePublishRouted, hempty]
      dsimp only
      rw [if_neg (fun hc => hc.2 rfl), if_neg (fun hc => hc.2 rfl)]

/-- C1 counterexample: `client_1` is connected and subscribed to topic `"t"`
(`[116]`), yet a PUBLISH on `"t"` whose payload is the single byte `0xFF`
(not valid UTF-8) — and likewise one with an empty payload — is forwarded to
nobody: the handler falls through to the no-op branch, while the claim
requires delivery to every subscriber for every payload. -/
theorem C1_unforwarded_payload_counterexample :
    build_publish_packet [116] [0xFF] = some [0x30, 4, 0, 1, 116, 0xFF] ∧
    ([116] : Topic) ≠ imageTopic ∧
    (⟨[("client_1", true)], [("client_1", [[116]])]⟩ : ServerState).subscriptions.lookup
        "client_1" = some [[116]] ∧
    (⟨[("client_1", true)], [("client_1", [[116]])]⟩ : ServerState).clients.lookup
        "client_1" = some true ∧
    handle_publish "client_9" [0x30, 4, 0, 1, 116, 0xFF]
        ⟨[("client_1", true)], [("client_1", [[116]])]⟩ (fun _ => true) =
      emptyPublishOutcome ⟨[("client_1", true)], [("client_1", [[116]])]⟩ ∧
    build_publish_packet [116] [] = some [0x30, 3, 0, 1, 116] ∧
    handle_publish "client_9" [0x30, 3, 0, 1, 116]
        ⟨[("client_1", true)], [("client_1", [[116]])]⟩ (fun _ => true) =
      emptyPublishOutcome ⟨[("client_1", true)], [("client_1", [[116]])]⟩ := by
  refine ⟨?_, by decide, by decide, by decide, ?_, ?_, ?_⟩ <;>
    simp +decide [handle_publish, handlePublishRouted, decode_remaining_length, drlGo,
      decode_string, utf8Decode, utf8Cont, emptyPublishOutcome, build_publish_packet,
      pack_u16, encode_remaining_length, utf8Encode, utf8EncodeScalar]

theorem C1_publish_forwarding_witness :
    ((∀ n ∈ ([116] : Topic), ValidScalar n) ∧
     2 + (utf8Encode [116]).length + ([104, 105] : List Nat).length ≤ 268435455 ∧
     build_publish_packet [116] [104, 105] = some [0x30, 5, 0, 1, 116, 104, 105] ∧
     ([116] : Topic) ≠ imageTopic ∧
     (∀ c, (fun (_ : ClientId) => true) c = true)) ∧
    (((∃ ps, utf8Decode [104, 105] = some ps ∧ ps ≠ []) →
      (handle_publish "client_9" [0x30, 5, 0, 1, 116, 104, 105]
          ⟨[("client_1", true)], [("client_1", [[116]])]⟩ (fun _ => true)).forward.deliveries =
        ((⟨[("client_1", true)], [("client_1", [[116]])]⟩ : ServerState).subscriptions.filter
          (fun p => decide (([116] : Topic) ∈ p.2 ∧
            (⟨[("client_1", true)], [("client_1", [[116]])]⟩ : ServerState).clients.lookup p.1 =
              some true))).map
          (fun p => (p.1, [0x30, 5, 0, 1, 116, 104, 105])) ∧
      (handle_publish "client_9" [0x30, 5, 0, 1, 116, 104, 105]
          ⟨[("client_1", true)], [("client_1", [[116]])]⟩ (fun _ => true)).forward.failed = [] ∧
      (handle_publish "client_9" [0x30, 5, 0, 1, 116, 104, 105]
          ⟨[("client_1", true)], [("client_1", [[116]])]⟩ (fun _ => true)).imageBytes = none ∧
      ([0x30, 5, 0, 1, 116, 104, 105] : List Nat).headD 0 = 0x30 ∧
      List.IsSuffix [104, 105] [0x30, 5, 0, 1, 116, 104, 105]) ∧
     ((utf8Decode [104, 105] = none ∨ utf8Decode [104, 105] = some []) →
      handle_publish "client_9" [0x30, 5, 0, 1, 116, 104, 105]
          ⟨[("client_1", true)], [("client_1", [[116]])]⟩ (fun _ => true) =
        emptyPublishOutcome ⟨[("client_1", true)], [("client_1", [[116]])]⟩)) :=
  ⟨⟨by decide, by decide,
      by simp +decide [build_publish_packet, pack_u16, encode_remaining_length, utf8Encode,
        utf8EncodeScalar],
      by decide, fun c => rfl⟩,
    C1_publish_forwarding "client_9" [116] [104, 105]
      ⟨[("client_1", true)], [("client_1", [[116]])]⟩ (fun _ => true)
      [0x30, 5, 0, 1, 116, 104, 105] (by decide) (by decide)
      (by simp +decide [build_publish_packet, pack_u16, encode_remaining_length, utf8Encode,
        utf8EncodeScalar])
      (by decide) (fun c => rfl)⟩

/-! ### Image-pipeline composition (C2) -/

/-- The data-URI prefix `"data:image/jpeg;base64,"`. -/
def dataUriPrefix : List Nat := strScalars "data:image/jpeg;base64,"

theorem splitAfterMarker_dataUriPrefix (x : List Nat) :
    splitAfterMarker base64Marker (dataUriPrefix ++ x) = some x := by
  simp [splitAfterMarker, base64Marker, strScalars, dataUriPrefix, List.isPrefixOf]

theorem ValidScalar_of_ascii (c : Nat) (h : c < 128) : ValidScalar c :=
  ⟨by omega, Or.inl (by omega)⟩

theorem b64encode_ascii (b : List Nat) (hbytes : ∀ x ∈ b, x < 256) :
    ∀ c ∈ b64encode b, c < 128 := by
  intro c hc
  rcases b64encode_chars b hbytes c hc with ⟨i, hi, rfl⟩ | rfl
  · exact b64alphabet_ascii i hi
  · omega

theorem utf8Encode_length_ascii (l : List Nat) (h : ∀ c ∈ l, c < 128) :
    (utf8Encode l).length = l.length := by
  induction l with
  | nil => rfl
  | cons c t ih =>
    have hc : c < 128 := h c (by simp)
    have hsplit : utf8Encode (c :: t) = utf8EncodeScalar c ++ utf8Encode t := by
      simp [utf8Encode]
    rw [hsplit, utf8EncodeScalar, if_pos hc]
    simp only [List.length_append, List.length_cons, List.length_nil,
      ih (fun x hx => h x (List.mem_cons_of_mem c hx))]
    omega

theorem padFix_b64encode (b : List Nat) : padFix (b64encode b) = b64encode b := by
  unfold padFix
  rw [b64encode_length_mod4]
  simp

/-- The camera pipeline on a full data-URI payload recovers the bytes. -/
theorem process_camera_image_padded (b : List Nat) (hbytes : ∀ x ∈ b, x < 256) :
    process_camera_image (dataUriPrefix ++ b64encode b) = some b := by
  unfold process_camera_image
  rw [splitAfterMarker_dataUriPrefix (b64encode b)]
  dsimp only
  rw [pyStrip_eq_self _ (b64encode_no_ws b hbytes)]
  rw [padFix_b64encode]
  exact b64decode_b64encode b hbytes

/-- The camera pipeline also recovers the bytes when the client stripped the
`=` padding (the padding-repair step restores it). -/
theorem process_camera_image_unpadded (b : List Nat) (hbytes : ∀ x ∈ b, x < 256) :
    process_camera_image (dataUriPrefix ++ stripPad (b64encode b)) = some b := by
  unfold process_camera_image
  rw [splitAfterMarker_dataUriPrefix (stripPad (b64encode b))]
  dsimp only
  have hnws : ∀ c ∈ stripPad (b64encode b), isPyWS c = false := by
    intro c hc
    have hc3 : c ∈ b64encode b ∧ ¬c = 61 := by simpa [stripPad] using hc
    exact b64encode_no_ws b hbytes c hc3.1
  rw [pyStrip_eq_self _ hnws]
  rw [padFix_stripPad_b64encode b hbytes]
  exact b64decode_b64encode b hbytes

/-- C2: a PUBLISH to the reserved image topic whose payload is the UTF-8 text
`"data:image/jpeg;base64," + base64(b)` makes the inference boundary receive
exactly `b` (`image_data_received`), nothing is emitted as `message_received`
and nothing is forwarded to any subscriber; the same holds when the base64
text arrives without its `=` padding (needing 1 or 2 padding characters, or 0
— the repair step restores them); and no byte sequence yields base64 text
needing 3 padding characters (that class is empty). -/
theorem C2_image_topic_pipeline (b : List Nat) (s : ServerState)
    (writeOk : ClientId → Bool) (client_id : ClientId)
    (hbytes : ∀ x ∈ b, x < 256)
    (hrem : 2 + (utf8Encode imageTopic).length +
      (utf8Encode (dataUriPrefix ++ b64encode b)).length ≤ 268435455) :
    (∀ pkt, build_publish_packet imageTopic
        (utf8Encode (dataUriPrefix ++ b64encode b)) = some pkt →
      handle_publish client_id pkt s writeOk =
        { messageEvent := none, imageBytes := some b, forward := ⟨[], []⟩, state := s }) ∧
    (∀ pkt, build_publish_packet imageTopic
        (utf8Encode (dataUriPrefix ++ stripPad (b64encode b))) = some pkt →
      handle_publish client_id pkt s writeOk =
        { messageEvent := none, imageBytes := some b, forward := ⟨[], []⟩, state := s }) ∧
    (stripPad (b64encode b)).length % 4 ≠ 1 := by
  have hvImage : ∀ n ∈ imageTopic, ValidScalar n := by decide
  have hprefix_ascii : ∀ c ∈ dataUriPrefix, c < 128 := by decide
  have hprefix_ne : dataUriPrefix ≠ ([] : List Nat) := by decide
  have henc_ascii := b64encode_ascii b hbytes
  have hstrip_ascii : ∀ c ∈ stripPad (b64encode b), c < 128 :=
    fun c hc => henc_ascii c (List.mem_filter.mp hc).1
  have hvalid1 : ∀ c ∈ dataUriPrefix ++ b64encode b, ValidScalar c := by
    intro c hc
    rcases List.mem_append.mp hc with hp | hl
    · exact ValidScalar_of_ascii c (hprefix_ascii c hp)
    · exact ValidScalar_of_ascii c (henc_ascii c hl)
  have hvalid2 : ∀ c ∈ dataUriPrefix ++ stripPad (b64encode b), ValidScalar c := by
    intro c hc
    rcases List.mem_append.mp hc with hp | hl
    · exact ValidScalar_of_ascii c (hprefix_ascii c hp)
    · exact ValidScalar_of_ascii c (hstrip_ascii c hl)
  have hne1 : dataUriPrefix ++ b64encode b ≠ [] := by
    intro hcon
    exact hprefix_ne (List.append_eq_nil.mp hcon).1
  have hne2 : dataUriPrefix ++ stripPad (b64encode b) ≠ [] := by
    intro hcon
    exact hprefix_ne (List.append_eq_nil.mp hcon).1
  have hrem2 : 2 + (utf8Encode imageTopic).length +
      (utf8Encode (dataUriPrefix ++ stripPad (b64encode b))).length ≤ 268435455 := by
    have hl1 : (utf8Encode (dataUriPrefix ++ b64encode b)).length =
        dataUriPrefix.length + (b64encode b).length := by
      rw [utf8Encode_length_ascii]
      · simp [List.length_append]
      · intro c hc
        rcases List.mem_append.mp hc with hp | hl
        · exact hprefix_ascii c hp
        · exact henc_ascii c hl
    have hl2 : (utf8Encode (dataUriPrefix ++ stripPad (b64encode b))).length =
        dataUriPrefix.length + (stripPad (b64encode b)).length := by
      rw [utf8Encode_length_ascii]
      · simp [List.length_append]
      · intro c hc
        rcases List.mem_append.mp hc with hp | hl
        · exact hprefix_ascii c hp
        · exact hstrip_ascii c hl
    have hle : (stripPad (b64encode b)).length ≤ (b64encode b).length :=
      List.length_filter_le _ _
    omega
  refine ⟨?_, ?_, stripPad_b64encode_mod4_ne_one b hbytes⟩
  · intro pkt hb
    obtain ⟨hmain, -, -⟩ := handle_publish_build_packet client_id imageTopic
      (utf8Encode (dataUriPrefix ++ b64encode b)) s writeOk pkt hvImage hrem hb
    rw [hmain, handlePublishRouted]
    rw [utf8Decode_utf8Encode _ hvalid1]
    dsimp only
    rw [if_pos ⟨rfl, hne1⟩]
    rw [process_camera_image_padded b hbytes]
  · intro pkt hb
    obtain ⟨hmain, -, -⟩ := handle_publish_build_packet client_id imageTopic
      (utf8Encode (dataUriPrefix ++ stripPad (b64encode b))) s writeOk pkt hvImage hrem2 hb
    rw [hmain, handlePublishRouted]
    rw [utf8Decode_utf8Encode _ hvalid2]
    dsimp only
    rw [if_pos ⟨rfl, hne2⟩]
    rw [process_camera_image_unpadded b hbytes]

theorem C2_image_topic_pipeline_witness :
    ((∀ x ∈ ([0, 255, 10, 77] : List Nat), x < 256) ∧
     2 + (utf8Encode imageTopic).length +
       (utf8Encode (dataUriPrefix ++ b64encode [0, 255, 10, 77])).length ≤ 268435455) ∧
    ((∀ pkt, build_publish_packet imageTopic
        (utf8Encode (dataUriPrefix ++ b64encode [0, 255, 10, 77])) = some pkt →
      handle_publish "client_1" pkt ⟨[], []⟩ (fun _ => true) =
        { messageEvent := none, imageBytes := some [0, 255, 10, 77],
          forward := ⟨[], []⟩, state := ⟨[], []⟩ }) ∧
     (∀ pkt, build_publish_packet imageTopic
        (utf8Encode (dataUriPrefix ++ stripPad (b64encode [0, 255, 10, 77]))) = some pkt →
      handle_publish "client_1" pkt ⟨[], []⟩ (fun _ => true) =
        { messageEvent := none, imageBytes := some [0, 255, 10, 77],
          forward := ⟨[], []⟩, state := ⟨[], []⟩ }) ∧
     (stripPad (b64encode [0, 255, 10, 77])).length % 4 ≠ 1) :=
  ⟨⟨by decide, by decide⟩,
    C2_image_topic_pipeline [0, 255, 10, 77] ⟨[], []⟩ (fun _ => true) "client_1"
      (by decide) (by decide)⟩

/-! ### Broadcast-failure lemmas (C8) -/

theorem forwardGo_delivers_writeOk (clients : List (ClientId × Bool)) (topic : Topic)
    (payload : List Nat) (writeOk : ClientId → Bool)
    (subs : List (ClientId × List Topic)) :
    ∀ p ∈ subs, topic ∈ p.2 → clients.lookup p.1 = some true → writeOk p.1 = true →
    ∀ pkt, build_publish_packet topic payload = some pkt →
    (p.1, pkt) ∈ (forwardGo clients topic payload writeOk subs).deliveries := by
  induction subs with
  | nil =>
    intro p hp
    simp at hp
  | cons q rest ih =>
    obtain ⟨cid, ts⟩ := q
    intro p hp htopic hconn hw pkt hpkt
    rw [forwardGo]
    rcases List.mem_cons.mp hp with rfl | hmem
    · rw [if_pos ⟨htopic, hconn⟩, hpkt]
      dsimp only
      rw [if_pos hw]
      exact List.mem_cons_self _ _
    · by_cases hcond : topic ∈ ts ∧ clients.lookup cid = some true
      · rw [if_pos hcond, hpkt]
        dsimp only
        by_cases hwc : writeOk cid = true
        · rw [if_pos hwc]
          exact List.mem_cons_of_mem _ (ih p hmem htopic hconn hw pkt hpkt)
        · rw [if_neg hwc]
          exact ih p hmem htopic hconn hw pkt hpkt
      · rw [if_neg hcond]
        exact ih p hmem htopic hconn hw pkt hpkt

theorem lookup_filter_none {β : Type} (l : List (ClientId × β)) (x : ClientId)
    (f : ClientId × β → Bool) (h : l.lookup x = none) :
    (l.filter f).lookup x = none := by
  induction l with
  | nil => rfl
  | cons q rest ih =>
    obtain ⟨k, v⟩ := q
    by_cases hk : x = k
    · subst hk
      simp [List.lookup] at h
    · have hbeq : (x == k) = false := by
        simp [beq_eq_false_iff_ne]
        exact hk
      simp only [List.lookup, hbeq] at h
      simp only [List.filter_cons]
      by_cases hf : f (k, v) = true
      · rw [if_pos hf]
        simp only [List.lookup, hbeq]
        exact ih h
      · rw [if_neg hf]
        exact ih h

theorem disconnect_client_lookup_self (s : ServerState) (x : ClientId) :
    (disconnect_client s x).clients.lookup x = none := by
  unfold disconnect_client
  by_cases hp : (s.clients.lookup x).isSome
  · rw [if_pos hp]
    exact lookup_filter_ne s.clients x
  · rw [if_neg hp]
    rcases hl : s.clients.lookup x with _ | v
    · rfl
    · rw [hl] at hp
      simp at hp

theorem disconnect_client_lookup_none (s : ServerState) (x y : ClientId)
    (h : s.clients.lookup y = none) :
    (disconnect_client s x).clients.lookup y = none := by
  unfold disconnect_client
  split
  · exact lookup_filter_none _ _ _ h
  · exact h

theorem foldl_disconnect_lookup_none (L : List ClientId) (s : ServerState) (y : ClientId)
    (h : s.clients.lookup y = none) :
    (L.foldl disconnect_client s).clients.lookup y = none := by
  induction L generalizing s with
  | nil => exact h
  | cons x rest ih =>
    simp only [List.foldl_cons]
    exact ih _ (disconnect_client_lookup_none s x y h)

theorem foldl_disconnect_mem_none (L : List ClientId) (s : ServerState) (f : ClientId)
    (hf : f ∈ L) : (L.foldl disconnect_client s).clients.lookup f = none := by
  induction L generalizing s with
  | nil => simp at hf
  | cons x rest ih =>
    simp only [List.foldl_cons]
    rcases List.mem_cons.mp hf with rfl | hmem
    · exact foldl_disconnect_lookup_none rest _ f (disconnect_client_lookup_self s f)
    · exact ih (disconnect_client s x) hmem

/-- C8 (amended): during a broadcast pass, write failures on other recipients
never prevent a successful recipient from receiving the message — in
`forward_to_subscribers` (conjunct 1, for an arbitrary `writeOk`) and in
`broadcast_message` (conjunct 2).  In `broadcast_message` the failed
recipients are collected during the pass and disconnected only after it
completes: every one of them is gone from the resulting state (conjunct 3).
In `forward_to_subscribers`, by contrast, a failed write is only logged —
no disconnection is ever scheduled (see the counterexample). -/
theorem C8_broadcast_failure_isolation (s : ServerState) (topic : Topic)
    (payload message : List Nat) (writeOk : ClientId → Bool) (cid : ClientId)
    (ts : List Topic) (pkt : List Nat)
    (hmem : (cid, ts) ∈ s.subscriptions) (htopic : topic ∈ ts)
    (hconn : s.clients.lookup cid = some true) (hw : writeOk cid = true)
    (hpkt : build_publish_packet topic payload = some pkt)
    (hmemc : (cid, true) ∈ s.clients) :
    (cid, pkt) ∈ (forward_to_subscribers s topic payload writeOk).deliveries ∧
    (cid, utf8Encode message) ∈ (broadcast_message s message writeOk).1 ∧
    (∀ f ∈ (broadcast_message s message writeOk).2.1,
      ((broadcast_message s message writeOk).2.2).clients.lookup f = none) := by
  refine ⟨?_, ?_, ?_⟩
  · exact forwardGo_delivers_writeOk s.clients topic payload writeOk s.subscriptions
      (cid, ts) hmem htopic hconn hw pkt hpkt
  · unfold broadcast_message
    dsimp only
    exact List.mem_map.mpr ⟨(cid, true),
      List.mem_filter.mpr ⟨hmemc, by simp [hw]⟩, rfl⟩
  · intro f hf
    unfold broadcast_message at hf ⊢
    dsimp only at hf ⊢
    exact foldl_disconnect_mem_none _ s f hf

/-- C8 counterexample: `client_1` and `client_2` are both connected and
subscribed to topic `"t"`; the write to `client_1` fails while `client_2`'s
succeeds.  The pass delivers to `client_2` (failure isolation holds) and
records `client_1` as failed — but the server state after the call is
unchanged and `client_1` is still a connected client: nothing schedules the
failed recipient for disconnection, contrary to the claim. -/
theorem C8_forward_failure_not_disconnected :
    (handle_publish "client_9" [0x30, 5, 0, 1, 116, 104, 105]
        ⟨[("client_1", true), ("client_2", true)],
          [("client_1", [[116]]), ("client_2", [[116]])]⟩
        (fun c => c == "client_2")).forward.failed = ["client_1"] ∧
    (handle_publish "client_9" [0x30, 5, 0, 1, 116, 104, 105]
        ⟨[("client_1", true), ("client_2", true)],
          [("client_1", [[116]]), ("client_2", [[116]])]⟩
        (fun c => c == "client_2")).forward.deliveries =
      [("client_2", [0x30, 5, 0, 1, 116, 104, 105])] ∧
    (handle_publish "client_9" [0x30, 5, 0, 1, 116, 104, 105]
        ⟨[("client_1", true), ("client_2", true)],
          [("client_1", [[116]]), ("client_2", [[116]])]⟩
        (fun c => c == "client_2")).state =
      ⟨[("client_1", true), ("client_2", true)],
        [("client_1", [[116]]), ("client_2", [[116]])]⟩ ∧
    ((⟨[("client_1", true), ("client_2", true)],
        [("client_1", [[116]]), ("client_2", [[116]])]⟩ : ServerState).clients.lookup
        "client_1" = some true) := by
  refine ⟨?_, ?_, ?_, by decide⟩ <;>
    simp +decide [handle_publish, handlePublishRouted, decode_remaining_length, drlGo,
      decode_string, utf8Decode, utf8Cont, forward_to_subscribers, forwardGo,
      build_publish_packet, pack_u16, encode_remaining_length, utf8Encode, utf8EncodeScalar]

theorem C8_broadcast_failure_isolation_witness :
    (("client_2", [[116]]) ∈ ([("client_1", [[116]]), ("client_2", [[116]])] :
        List (ClientId × List Topic)) ∧
      ([116] : Topic) ∈ [[116]] ∧
      ([("client_1", true), ("client_2", true)] :
        List (ClientId × Bool)).lookup "client_2" = some true ∧
      (fun (c : ClientId) => c == "client_2") "client_2" = true ∧
      build_publish_packet [116] [104, 105] = some [0x30, 5, 0, 1, 116, 104, 105] ∧
      ("client_2", true) ∈ ([("client_1", true), ("client_2", true)] :
        List (ClientId × Bool))) ∧
    (("client_2", [0x30, 5, 0, 1, 116, 104, 105]) ∈
      (forward_to_subscribers
        ⟨[("client_1", true), ("client_2", true)],
          [("client_1", [[116]]), ("client_2", [[116]])]⟩ [116] [104, 105]
        (fun c => c == "client_2")).deliveries ∧
     ("client_2", utf8Encode [104]) ∈
      (broadcast_message
        ⟨[("client_1", true), ("client_2", true)],
          [("client_1", [[116]]), ("client_2", [[116]])]⟩ [104]
        (fun c => c == "client_2")).1 ∧
     (∀ f ∈ (broadcast_message
        ⟨[("client_1", true), ("client_2", true)],
          [("client_1", [[116]]), ("client_2", [[116]])]⟩ [104]
        (fun c => c == "client_2")).2.1,
      ((broadcast_message
        ⟨[("client_1", true), ("client_2", true)],
          [("client_1", [[116]]), ("client_2", [[116]])]⟩ [104]
        (fun c => c == "client_2")).2.2).clients.lookup f = none)) :=
  ⟨⟨by decide, by decide, by decide, by decide,
     by simp +decide [build_publish_packet, pack_u16, encode_remaining_length, utf8Encode,
       utf8EncodeScalar],
     by decide⟩,
    C8_broadcast_failure_isolation
      ⟨[("client_1", true), ("client_2", true)],
        [("client_1", [[116]]), ("client_2", [[116]])]⟩ [116] [104, 105] [104]
      (fun c => c == "client_2") "client_2" [[116]] [0x30, 5, 0, 1, 116, 104, 105]
      (by decide) (by decide) (by decide) (by decide)
      (by simp +decide [build_publish_packet, pack_u16, encode_remaining_length, utf8Encode,
        utf8EncodeScalar])
      (by decide)⟩
